import Mathlib

/-!
# Chat relay (`Example_ChatServer` / `Example_ChatClient`): codec, room and handlers

A shallow embedding of the chat example of the repository:

* `chat_message` — the fixed-capacity frame (`data_`, `body_length_`) with
  `body_length`, `decode_header`, `encode_header` (identical in the server and
  the client source files);
* `chat_room` — membership set and bounded recent-message history;
* `chat_session` / `chat_client` — send queue, `deliver`, and the completion
  handlers of the header read, the body read and the write;
* `server_event` — the events of the server (start of a session, `deliver`, the
  completions) as a step function on `server_state`;
* `producer` — the `getline` loop of the client's `main`.

Bytes are natural numbers (`0 … 255`), `std::size_t` is 64 bits wide, `int` is
32 bits wide.  Buffers are lists of bytes; a `chat_message` of the program has
`data_.length = 516`.
-/

namespace ChatRelay

/-! ## C library functions used by the codec -/

/-- The `isspace` classification of the "C" locale: space, `\t`, `\n`, `\v`, `\f`, `\r`. -/
def isspace (c : Nat) : Bool := c == 32 || (9 ≤ c && c ≤ 13)

/-- The `isdigit` classification: `'0'` … `'9'`. -/
def isdigit (c : Nat) : Bool := 48 ≤ c && c ≤ 57

/-- The digit loop of `atoi`: accumulate decimal digits until the first byte
that is not a digit (or the end of the string). -/
def atoi_digits : Nat → List Nat → Nat
  | acc, [] => acc
  | acc, c :: cs => if isdigit c then atoi_digits (acc * 10 + (c - 48)) cs else acc

/-- The function `std::atoi` on a C string given as the list of its bytes before the
terminating NUL: skip leading white space, take an optional sign, then the
longest run of decimal digits; no digits at all give `0`.  (Strings of at most
four bytes cannot overflow `int`.) -/
def atoi (s : List Nat) : Int :=
  match s.dropWhile isspace with
  | [] => 0
  | c :: cs =>
    if c = 45 then -((atoi_digits 0 cs : Nat) : Int)
    else if c = 43 then ((atoi_digits 0 cs : Nat) : Int)
    else ((atoi_digits 0 (c :: cs) : Nat) : Int)

/-- The call `std::strncat(dest, src, n)` with `dest` the empty string: at most `n`
bytes of `src`, stopping before the first NUL. -/
def strncat_empty (src : List Nat) (n : Nat) : List Nat :=
  (src.take n).takeWhile (fun c => c != 0)

/-- Decimal digits of a non-negative value, most significant first, produced by
the usual divide-by-ten loop.  The first argument bounds the number of
iterations; ten iterations suffice for every 32-bit `int`. -/
def utoa_loop : Nat → Nat → List Nat → List Nat
  | 0, _, acc => acc
  | fuel + 1, n, acc =>
    if n / 10 = 0 then (48 + n % 10) :: acc
    else utoa_loop fuel (n / 10) ((48 + n % 10) :: acc)

/-- The conversion `%d` of `printf`: signed decimal, `-` for negative values. -/
def fmt_d (v : Int) : List Nat :=
  if v < 0 then 45 :: utoa_loop 10 v.natAbs [] else utoa_loop 10 v.toNat []

/-- The string `std::sprintf(header, "%4d", v)` writes (without the terminating
NUL): `%d` padded on the left with spaces to a minimum width of 4. -/
def sprintf_4d (v : Int) : List Nat :=
  List.replicate (4 - (fmt_d v).length) 32 ++ fmt_d v

/-- The conversion `static_cast<int>(x)` of a `std::size_t`: reduction modulo `2^32` into
the signed range. -/
def static_cast_int (x : Nat) : Int :=
  if x % 2 ^ 32 < 2 ^ 31 then ((x % 2 ^ 32 : Nat) : Int)
  else ((x % 2 ^ 32 : Nat) : Int) - 2 ^ 32

/-- Conversion of an `int` to `std::size_t` (64 bits): reduction modulo `2^64`. -/
def int_to_size_t (v : Int) : Nat := (v % 2 ^ 64).toNat

/-- The call `std::memcpy(dst + off, src, n)` on buffers as lists: the `n` bytes at
offset `off` of `dst` are replaced by the first `n` bytes of `src`. -/
def memcpy_at (dst : List Nat) (off : Nat) (src : List Nat) (n : Nat) : List Nat :=
  dst.take off ++ src.take n ++ dst.drop (off + n)

/-! ## `chat_message` -/

/-- The class `chat_message`: the buffer `data_` (`header_length + max_body_length` bytes) and
`body_length_`. -/
structure chat_message where
  data_ : List Nat
  body_length_ : Nat
deriving DecidableEq, Repr

namespace chat_message

def header_length : Nat := 4
def max_body_length : Nat := 512

/-- The constructor `chat_message()`: `body_length_` is `0`; `data_` is not initialised, its
indeterminate contents are the argument. -/
def new (garbage : List Nat) : chat_message := ⟨garbage, 0⟩

/-- The accessor `length()`. -/
def length (m : chat_message) : Nat := header_length + m.body_length_

/-- The accessor `body()`: the buffer from offset `header_length` on. -/
def body (m : chat_message) : List Nat := m.data_.drop header_length

/-- The getter `body_length()`. -/
def body_length (m : chat_message) : Nat := m.body_length_

/-- The setter `body_length(new_length)`. -/
def set_body_length (m : chat_message) (new_length : Nat) : chat_message :=
  let m1 := { m with body_length_ := new_length }
  if m1.body_length_ > max_body_length then { m1 with body_length_ := max_body_length } else m1

/-- The method `decode_header()`: the returned flag and the message afterwards. -/
def decode_header (m : chat_message) : Bool × chat_message :=
  let header := strncat_empty m.data_ header_length
  let m1 := { m with body_length_ := int_to_size_t (atoi header) }
  if m1.body_length_ > max_body_length then (false, { m1 with body_length_ := 0 })
  else (true, m1)

/-- The method `encode_header()`.  For `body_length_ ≤ 9999` the formatted string has
exactly four characters; beyond that `sprintf` overruns `header` in the
source, and the embedding keeps the first four characters. -/
def encode_header (m : chat_message) : chat_message :=
  let header := sprintf_4d (static_cast_int m.body_length_)
  { m with data_ := memcpy_at m.data_ 0 header header_length }

/-- The bytes an `async_write` of `buffer(data(), length())` puts on the wire. -/
def wire (m : chat_message) : List Nat := m.data_.take m.length

end chat_message

/-- The main loop body of the client (`chat_message msg; msg.body_length(n);
memcpy(msg.body(), line, msg.body_length()); msg.encode_header();`) for a
line whose `strlen` is `line.length`; `garbage` is the uninitialised buffer. -/
def client_frame (garbage : List Nat) (line : List Nat) : chat_message :=
  let msg := chat_message.new garbage
  let msg := msg.set_body_length line.length
  let msg := { msg with
    data_ := memcpy_at msg.data_ chat_message.header_length line msg.body_length }
  msg.encode_header

/-- The effect of a completed `async_read(socket_, buffer(read_msg_.data(), header_length))`:
the received bytes are stored at the start of the buffer. -/
def store_header (m : chat_message) (bytes : List Nat) : chat_message :=
  { m with data_ := memcpy_at m.data_ 0 bytes bytes.length }

/-- The effect of a completed `async_read(socket_, buffer(read_msg_.body(), read_msg_.body_length()))`:
the received bytes are stored from offset `header_length` on. -/
def store_body (m : chat_message) (bytes : List Nat) : chat_message :=
  { m with data_ := memcpy_at m.data_ chat_message.header_length bytes bytes.length }

/-- The payload of a received message, `string_view(body(), body_length())`. -/
def chat_message.payload (m : chat_message) : List Nat := m.body.take m.body_length

/-- A receiver reading one frame from a byte stream, as `do_read_header` and
`do_read_body` do: four bytes, `decode_header`, then `body_length()` bytes.
Returns the decode flag, the message slot afterwards and the unread rest. -/
def receive_frame (slot : chat_message) (stream : List Nat) : Bool × chat_message × List Nat :=
  let m1 := store_header slot (stream.take chat_message.header_length)
  let rest := stream.drop chat_message.header_length
  match m1.decode_header with
  | (true, m2) => (true, store_body m2 (rest.take m2.body_length), rest.drop m2.body_length)
  | (false, m2) => (false, m2, rest)

/-! ## Sessions, the room and the client -/

/-- Asynchronous socket operations started by a session or by the client. -/
inductive async_op where
  | read_header
  | read_body (n : Nat)
  | write (bytes : List Nat)
deriving DecidableEq, Repr

/-- The state of a `chat_session`: the inbound slot `read_msg_`, the send queue `write_msgs_`
(front first) and the operations outstanding on `socket_`. -/
structure chat_session where
  read_msg_ : chat_message
  write_msgs_ : List chat_message
  pending : List async_op
deriving DecidableEq, Repr

/-- The class `chat_room`: `participants_` is the in-order traversal of the
`std::set` of participant pointers (addresses as naturals, strictly
ascending), `recent_msgs_` the history deque, front first. -/
structure chat_room where
  participants_ : List Nat
  recent_msgs_ : List chat_message
deriving DecidableEq, Repr

/-- The server side: the room and the session objects by address. -/
structure server_state where
  room_ : chat_room
  sessions : Nat → chat_session

def max_recent_msgs : Nat := 100

/-- Representation invariant of a `std::set`: keys strictly ascending. -/
def set_wf (l : List Nat) : Prop := l.Pairwise (fun a b => a < b)

instance (l : List Nat) : Decidable (set_wf l) := by
  unfold set_wf; infer_instance

/-- The call `std::set::insert`: no effect when the key is present. -/
def set_insert (p : Nat) : List Nat → List Nat
  | [] => [p]
  | q :: qs => if p < q then p :: q :: qs else if p = q then q :: qs else q :: set_insert p qs

/-- The call `std::set::erase(key)`: removes the element with that key, if there is one. -/
def set_erase (p : Nat) : List Nat → List Nat
  | [] => []
  | q :: qs => if p = q then qs else q :: set_erase p qs

/-- The loop `while (recent_msgs_.size() > max_recent_msgs) recent_msgs_.pop_front();`. -/
def pop_front_loop : List chat_message → List chat_message
  | [] => []
  | m :: ms => if (m :: ms).length > max_recent_msgs then pop_front_loop ms else m :: ms

namespace chat_session

/-- The method `do_write()`: start an `async_write` of the front of the queue.  Every
call in the source is made with a non-empty queue. -/
def do_write (s : chat_session) : chat_session :=
  match s.write_msgs_ with
  | [] => s
  | front :: _ => { s with pending := s.pending ++ [async_op.write front.wire] }

/-- The method `deliver(msg)`. -/
def deliver (s : chat_session) (msg : chat_message) : chat_session :=
  let write_in_progress := !s.write_msgs_.isEmpty
  let s1 := { s with write_msgs_ := s.write_msgs_ ++ [msg] }
  if !write_in_progress then s1.do_write else s1

/-- The method `do_read_header()`: start the header read. -/
def do_read_header (s : chat_session) : chat_session :=
  { s with pending := s.pending ++ [async_op.read_header] }

/-- The method `do_read_body()`: start the body read of `body_length()` bytes. -/
def do_read_body (s : chat_session) : chat_session :=
  { s with pending := s.pending ++ [async_op.read_body s.read_msg_.body_length] }

end chat_session

/-- The virtual call `participant->deliver(msg)` on the session at address `p`. -/
def participant_deliver (w : server_state) (p : Nat) (msg : chat_message) : server_state :=
  { w with sessions := Function.update w.sessions p ((w.sessions p).deliver msg) }

namespace chat_room

/-- The method `join(participant)`. -/
def join (w : server_state) (participant : Nat) : server_state :=
  let w1 := { w with
    room_ := { w.room_ with participants_ := set_insert participant w.room_.participants_ } }
  w1.room_.recent_msgs_.foldl (fun acc msg => participant_deliver acc participant msg) w1

/-- The method `leave(participant)`. -/
def leave (r : chat_room) (participant : Nat) : chat_room :=
  { r with participants_ := set_erase participant r.participants_ }

/-- The method `deliver(msg)`. -/
def deliver (w : server_state) (msg : chat_message) : server_state :=
  let w1 := { w with
    room_ := { w.room_ with recent_msgs_ := pop_front_loop (w.room_.recent_msgs_ ++ [msg]) } }
  w1.room_.participants_.foldl (fun acc p => participant_deliver acc p msg) w1

end chat_room

/-- A call made on the room. -/
inductive room_call where
  | join (participant : Nat)
  | leave (participant : Nat)
  | deliver (msg : chat_message)

/-- Perform one call on the room. -/
def room_call.run (w : server_state) : room_call → server_state
  | room_call.join p => chat_room.join w p
  | room_call.leave p => { w with room_ := w.room_.leave p }
  | room_call.deliver msg => chat_room.deliver w msg

/-- A freshly constructed `chat_room`: no participants, no history. -/
def chat_room.empty : chat_room := ⟨[], []⟩

/-- The completion handler of the header read of `chat_session::do_read_header` for
the session at address `self`: `ec` is the error flag, `bytes` what the read
stored (all four bytes when `ec` is clear). -/
def chat_session.on_read_header (w : server_state) (self : Nat) (ec : Bool)
    (bytes : List Nat) : server_state :=
  let s := w.sessions self
  let s := { s with
    read_msg_ := store_header s.read_msg_ bytes
    pending := s.pending.erase async_op.read_header }
  if !ec then
    match s.read_msg_.decode_header with
    | (true, m) =>
      { w with sessions := Function.update w.sessions self ({ s with read_msg_ := m }).do_read_body }
    | (false, m) =>
      { room_ := w.room_.leave self
        sessions := Function.update w.sessions self { s with read_msg_ := m } }
  else
    { room_ := w.room_.leave self
      sessions := Function.update w.sessions self s }

/-- The state of a `chat_client`: whether `socket_` is open, the inbound slot, the send
queue and the outstanding operations. -/
structure chat_client where
  socket_open : Bool
  read_msg_ : chat_message
  write_msgs_ : List chat_message
  pending : List async_op
deriving DecidableEq, Repr

/-- The method `chat_client::do_read_body()`. -/
def chat_client.do_read_body (c : chat_client) : chat_client :=
  { c with pending := c.pending ++ [async_op.read_body c.read_msg_.body_length] }

/-- The completion handler of the header read of `chat_client::do_read_header`. -/
def chat_client.on_read_header (c : chat_client) (ec : Bool) (bytes : List Nat) : chat_client :=
  let c := { c with
    read_msg_ := store_header c.read_msg_ bytes
    pending := c.pending.erase async_op.read_header }
  if !ec then
    match c.read_msg_.decode_header with
    | (true, m) => ({ c with read_msg_ := m }).do_read_body
    | (false, m) => { c with read_msg_ := m, socket_open := false }
  else
    { c with socket_open := false }

/-- Value of a list of decimal digits, most significant first. -/
def decimal_value (ds : List Nat) : Nat := ds.foldl (fun acc d => acc * 10 + d) 0

/-- The text of a string literal as bytes. -/
def bytes_of (s : String) : List Nat := s.toList.map Char.toNat

/-- A freshly constructed `chat_session`: empty send queue, nothing outstanding. -/
def chat_session.new (garbage : List Nat) : chat_session :=
  ⟨chat_message.new garbage, [], []⟩

/-- The frame the client builds for the one-byte line `[i]`. -/
def numbered_msg (i : Nat) : chat_message := client_frame (List.replicate 516 0) [i]

/-- A server with an empty room whose session objects are all freshly constructed. -/
def fresh_server : server_state :=
  ⟨chat_room.empty, fun _ => chat_session.new (List.replicate 516 0)⟩

/-! ## The write pipeline of a session -/

/-- The buffers of the write operations among `ops`, oldest first. -/
def write_buffers : List async_op → List (List Nat)
  | [] => []
  | op :: ops =>
    match op with
    | async_op.write b => b :: write_buffers ops
    | _ => write_buffers ops

/-- The buffers of the `async_write` operations of a session that have not completed yet. -/
def chat_session.writes_in_flight (s : chat_session) : List (List Nat) :=
  write_buffers s.pending

/-- Completion of the oldest outstanding write: it is taken out of the
outstanding operations; `none` when no write is outstanding. -/
def complete_write : List async_op → Option (List async_op)
  | [] => none
  | op :: ops =>
    match op with
    | async_op.write _ => some ops
    | _ => (complete_write ops).map (fun r => op :: r)

/-- The completion handler of `chat_session::do_write` when `ec` is clear:
`front()`, `pop_front()`, and `do_write()` again if the queue is not empty.
On an empty queue `front()` and `pop_front()` are undefined: `none`. -/
def chat_session.on_write_ok (s : chat_session) : Option chat_session :=
  match s.write_msgs_ with
  | [] => none
  | _ :: rest =>
    let s1 := { s with write_msgs_ := rest }
    some (if !s1.write_msgs_.isEmpty then s1.do_write else s1)

/-- The events of the write pipeline of one session: a call of `deliver(msg)` and
the successful completion of the write in flight. -/
inductive queue_event where
  | deliver (msg : chat_message)
  | write_done

/-- One event of the write pipeline; `none` when a write completion is asked for
while no write is in flight, or when the handler runs on an empty queue. -/
def queue_event.run (s : chat_session) : queue_event → Option chat_session
  | queue_event.deliver msg => some (s.deliver msg)
  | queue_event.write_done =>
    match complete_write s.pending with
    | none => none
    | some ops => ({ s with pending := ops }).on_write_ok

/-- A sequence of events of the write pipeline. -/
def queue_run : chat_session → List queue_event → Option chat_session
  | s, [] => some s
  | s, e :: es =>
    match e.run s with
    | none => none
    | some s1 => queue_run s1 es

/-- The operations started by an event that led from `s` to `s1`: handlers append
the operations they start to the outstanding ones; a completion has first
taken one operation out. -/
def queue_event.started (s : chat_session) (e : queue_event) (s1 : chat_session) :
    List async_op :=
  match e with
  | queue_event.deliver _ => s1.pending.drop s.pending.length
  | queue_event.write_done => s1.pending.drop (s.pending.length - 1)

/-- A session together with two records kept for stating properties of its
write pipeline: the arguments of all `deliver` calls so far, and the buffers
handed to `async_write` so far, both oldest first. -/
structure write_trace where
  session : chat_session
  delivered : List chat_message
  written : List (List Nat)

/-- One event on a recorded session. -/
def write_trace.step (t : write_trace) (e : queue_event) : Option write_trace :=
  match e.run t.session with
  | none => none
  | some s1 =>
    some
      { session := s1
        delivered := t.delivered ++ (match e with
          | queue_event.deliver msg => [msg]
          | queue_event.write_done => [])
        written := t.written ++ write_buffers (e.started t.session s1) }

/-- A sequence of events on a recorded session. -/
def write_trace.run : write_trace → List queue_event → Option write_trace
  | t, [] => some t
  | t, e :: es =>
    match t.step e with
    | none => none
    | some t1 => write_trace.run t1 es

/-- The arguments of the `deliver` calls among the events, in order. -/
def delivered_of : List queue_event → List chat_message
  | [] => []
  | e :: es =>
    match e with
    | queue_event.deliver msg => msg :: delivered_of es
    | queue_event.write_done => delivered_of es

/-! ## The events of the server -/

/-- The method `chat_session::start()`: join the room, then start the header read. -/
def chat_session.start (w : server_state) (self : Nat) : server_state :=
  let w1 := chat_room.join w self
  { w1 with sessions := Function.update w1.sessions self (w1.sessions self).do_read_header }

/-- The completion handler of the body read of `chat_session::do_read_body` for the
session at address `self`. -/
def chat_session.on_read_body (w : server_state) (self : Nat) (ec : Bool)
    (bytes : List Nat) : server_state :=
  let s := w.sessions self
  let s := { s with
    read_msg_ := store_body s.read_msg_ bytes
    pending := s.pending.erase (async_op.read_body s.read_msg_.body_length) }
  if !ec then
    let w1 := chat_room.deliver { w with sessions := Function.update w.sessions self s } s.read_msg_
    { w1 with sessions := Function.update w1.sessions self (w1.sessions self).do_read_header }
  else
    { room_ := w.room_.leave self
      sessions := Function.update w.sessions self s }

/-- The completion handler of the write of `chat_session::do_write` for the session
at address `self`; `none` when no write is in flight, or when the handler
would apply `front()` to an empty queue. -/
def chat_session.on_write (w : server_state) (self : Nat) (ec : Bool) : Option server_state :=
  match complete_write (w.sessions self).pending with
  | none => none
  | some ops =>
    let s : chat_session := { w.sessions self with pending := ops }
    if !ec then
      match s.on_write_ok with
      | none => none
      | some s1 => some { w with sessions := Function.update w.sessions self s1 }
    else
      some
        { room_ := w.room_.leave self
          sessions := Function.update w.sessions self s }

/-- What happens on the server: a session is started by the accept handler, a
participant's `deliver` is called, or one of the outstanding operations of a
session completes (with error flag `ec`; reads carry the bytes stored). -/
inductive server_event where
  | start (p : Nat)
  | deliver (p : Nat) (msg : chat_message)
  | read_header_done (p : Nat) (ec : Bool) (bytes : List Nat)
  | read_body_done (p : Nat) (ec : Bool) (bytes : List Nat)
  | write_done (p : Nat) (ec : Bool)
deriving DecidableEq

/-- One event; a completion is possible only for an outstanding operation. -/
def server_event.run (w : server_state) : server_event → Option server_state
  | server_event.start p => some (chat_session.start w p)
  | server_event.deliver p msg => some (participant_deliver w p msg)
  | server_event.read_header_done p ec bytes =>
    if async_op.read_header ∈ (w.sessions p).pending then
      some (chat_session.on_read_header w p ec bytes)
    else none
  | server_event.read_body_done p ec bytes =>
    if async_op.read_body (w.sessions p).read_msg_.body_length ∈ (w.sessions p).pending then
      some (chat_session.on_read_body w p ec bytes)
    else none
  | server_event.write_done p ec => chat_session.on_write w p ec

/-- A sequence of events. -/
def server_run : server_state → List server_event → Option server_state
  | w, [] => some w
  | w, e :: es =>
    match e.run w with
    | none => none
    | some w1 => server_run w1 es

/-- The completion handler run by the event observes an I/O error or a header
decode failure of the session at `self`. -/
def observes_failure (w : server_state) (self : Nat) : server_event → Bool
  | server_event.read_header_done p ec bytes =>
    p == self &&
      (ec || !((store_header (w.sessions self).read_msg_ bytes).decode_header).1)
  | server_event.read_body_done p ec _ => p == self && ec
  | server_event.write_done p ec => p == self && ec
  | _ => false

/-- The event comes from the reactor (accept or completion handler), not from an
outside call of `deliver`. -/
def server_event.from_reactor : server_event → Bool
  | server_event.deliver _ _ => false
  | _ => true

/-- The size of `data_`. -/
def buffer_size : Nat := chat_message.header_length + chat_message.max_body_length

/-- The buffer range of an operation lies inside a message buffer: a body read
of `n` bytes starts at offset `header_length`, a write starts at offset 0. -/
def async_op.fits : async_op → Prop
  | async_op.read_header => chat_message.header_length ≤ buffer_size
  | async_op.read_body n => chat_message.header_length + n ≤ buffer_size
  | async_op.write bytes => bytes.length ≤ buffer_size

/-- All lengths of a session are within the buffer. -/
def chat_session.lengths_ok (s : chat_session) : Prop :=
  s.read_msg_.length ≤ buffer_size ∧
  (∀ m ∈ s.write_msgs_, chat_message.length m ≤ buffer_size) ∧
  (∀ op ∈ s.pending, op.fits)

/-- All lengths on the server are within the buffer. -/
def server_state.lengths_ok (w : server_state) : Prop :=
  (∀ m ∈ w.room_.recent_msgs_, chat_message.length m ≤ buffer_size) ∧
  ∀ p, (w.sessions p).lengths_ok

/-! ## The producer loop of the client -/

/-- The call `std::cin.getline(line, count)` on the input that is left, with
`stored` the characters stored so far: characters are stored until the end of
the input, or the next character is `'\n'` (extracted, not stored), or
`count - 1` characters are stored (`failbit`), tested in this order; `failbit`
is also set when nothing was extracted.  Returns the characters stored, the
input left and `failbit`. -/
def getline_loop (count : Nat) : List Nat → List Nat → List Nat × List Nat × Bool
  | stored, [] => (stored, [], stored.isEmpty)
  | stored, c :: cs =>
    if c = 10 then (stored, cs, false)
    else if count ≤ stored.length + 1 then (stored, c :: cs, true)
    else getline_loop count (stored ++ [c]) cs

/-- The loop `while (std::cin.getline(line, max_body_length + 1)) { … c.write(msg); }`
of the client's `main`: the messages passed to `c.write`, in order.  The
first argument bounds the number of iterations. -/
def producer_loop (garbage : List Nat) : Nat → List Nat → List chat_message
  | 0, _ => []
  | fuel + 1, input =>
    match getline_loop (chat_message.max_body_length + 1) [] input with
    | (_, _, true) => []
    | (stored, rest, false) =>
      client_frame garbage (stored.takeWhile (fun c => c != 0)) :: producer_loop garbage fuel rest

/-- The producer loop on a given standard input; every iteration consumes input,
so `input.length + 1` iterations are never used up. -/
def producer (garbage : List Nat) (input : List Nat) : List chat_message :=
  producer_loop garbage (input.length + 1) input

/-- For `atoi` there is no digit to convert: after the leading white space and an
optional sign the text ends or goes on with a byte that is not a digit. -/
def no_digit_to_convert (s : List Nat) : Bool :=
  match s.dropWhile isspace with
  | [] => true
  | c :: cs =>
    if c = 45 ∨ c = 43 then
      match cs with
      | [] => true
      | d :: _ => !isdigit d
    else !isdigit c

/-! ## Codec lemmas -/

theorem static_cast_int_small (n : Nat) (h : n < 2 ^ 31) : static_cast_int n = (n : Int) := by
  have h1 : n % 2 ^ 32 = n := Nat.mod_eq_of_lt (by omega)
  unfold static_cast_int
  rw [h1, if_pos h]

set_option maxRecDepth 100000 in
theorem sprintf_4d_facts : ∀ n : Nat, n ≤ 512 →
    (sprintf_4d (n : Int)).length = 4 ∧
    strncat_empty (sprintf_4d (n : Int)) 4 = sprintf_4d (n : Int) ∧
    atoi (sprintf_4d (n : Int)) = (n : Int) := by
  decide

set_option maxRecDepth 100000 in
theorem sprintf_4d_digits : ∀ n : Nat, n ≤ 512 →
    fmt_d (n : Int) ≠ [] ∧ (fmt_d (n : Int)).length ≤ 4 ∧
    (∀ c ∈ fmt_d (n : Int), 48 ≤ c ∧ c ≤ 57) ∧
    ((fmt_d (n : Int)).head? = some 48 → fmt_d (n : Int) = [48]) ∧
    decimal_value ((fmt_d (n : Int)).map (fun c => c - 48)) = n := by
  decide

theorem memcpy_at_zero (dst src : List Nat) (n : Nat) (h : src.length = n) :
    memcpy_at dst 0 src n = src ++ dst.drop n := by
  subst h
  simp [memcpy_at]

theorem strncat_empty_append (hdr rest : List Nat) (hlen : hdr.length = 4)
    (hnz : strncat_empty hdr 4 = hdr) : strncat_empty (hdr ++ rest) 4 = hdr := by
  have h1 : (hdr ++ rest).take 4 = hdr := by
    rw [← hlen]; exact List.take_left' rfl
  have h2 : hdr.take 4 = hdr := by
    rw [← hlen]; exact List.take_length hdr
  unfold strncat_empty at hnz ⊢
  rw [h1]
  rw [h2] at hnz
  exact hnz

theorem encode_header_data (m : chat_message) (h : m.body_length_ ≤ 512) :
    m.encode_header.data_ = sprintf_4d (m.body_length_ : Int) ++ m.data_.drop 4 := by
  have hc := static_cast_int_small m.body_length_ (by omega)
  have hl := (sprintf_4d_facts m.body_length_ h).1
  simp only [chat_message.encode_header, hc, chat_message.header_length]
  exact memcpy_at_zero _ _ _ hl

theorem encode_header_body_length (m : chat_message) :
    m.encode_header.body_length_ = m.body_length_ := rfl

theorem set_body_length_val (m : chat_message) (n : Nat) :
    (m.set_body_length n).body_length_ = min n 512 := by
  unfold chat_message.set_body_length chat_message.max_body_length
  by_cases h : n > 512
  · simp [h]; omega
  · simp [h]; omega

theorem set_body_length_data (m : chat_message) (n : Nat) :
    (m.set_body_length n).data_ = m.data_ := by
  simp only [chat_message.set_body_length]
  split <;> rfl

theorem int_to_size_t_nonneg (v : Int) (h0 : 0 ≤ v) (h1 : v < 2 ^ 64) :
    int_to_size_t v = v.toNat := by
  unfold int_to_size_t
  rw [Int.emod_eq_of_lt h0 h1]

/-- Decoding a buffer that starts with the `%4d` rendering of `n ≤ 512` succeeds
with `body_length_ = n` and changes nothing else. -/
theorem decode_header_of_sprintf (n bl : Nat) (rest : List Nat) (h : n ≤ 512) :
    chat_message.decode_header ⟨sprintf_4d (n : Int) ++ rest, bl⟩ =
      (true, ⟨sprintf_4d (n : Int) ++ rest, n⟩) := by
  obtain ⟨hl, hs, ha⟩ := sprintf_4d_facts n h
  have hh := strncat_empty_append _ rest hl hs
  have hv : int_to_size_t (n : Int) = n := by
    rw [int_to_size_t_nonneg _ (by omega) (by omega)]; simp
  simp only [chat_message.decode_header, chat_message.header_length, hh, ha, hv,
    chat_message.max_body_length]
  simp [h]

/-! ## Claims on the message codec -/

/-- C1. Header round trip with clamping: for every message `m` and every size
`n`, after `body_length(n)`, `encode_header()` and `decode_header()` on the
same message, `decode_header` returns `true` (leaving the encoded message as
it is) and `body_length()` is `min n 512`. -/
theorem header_round_trip (m : chat_message) (n : Nat) :
    ((m.set_body_length n).encode_header.decode_header).1 = true ∧
    ((m.set_body_length n).encode_header.decode_header).2.body_length = min n 512 ∧
    ((m.set_body_length n).encode_header.decode_header).2 = (m.set_body_length n).encode_header := by
  have hb := set_body_length_val m n
  have hle : (m.set_body_length n).body_length_ ≤ 512 := by omega
  have hd := encode_header_data _ hle
  have hbl := encode_header_body_length (m.set_body_length n)
  have key : (m.set_body_length n).encode_header =
      ⟨sprintf_4d ((m.set_body_length n).body_length_ : Int) ++ (m.set_body_length n).data_.drop 4,
        (m.set_body_length n).body_length_⟩ := by
    rw [← hd, ← hbl]
  rw [key, decode_header_of_sprintf _ _ _ hle]
  exact ⟨rfl, hb, rfl⟩

theorem client_frame_eq (garbage b : List Nat) (hg : garbage.length = 516)
    (hb : b.length ≤ 512) :
    client_frame garbage b =
      ⟨sprintf_4d (b.length : Int) ++ (b ++ garbage.drop (4 + b.length)), b.length⟩ := by
  have hbl : ((chat_message.new garbage).set_body_length b.length).body_length_ = b.length := by
    rw [set_body_length_val]; omega
  have hdat : ((chat_message.new garbage).set_body_length b.length).data_ = garbage :=
    set_body_length_data _ _
  have hl := (sprintf_4d_facts b.length hb).1
  have hc := static_cast_int_small b.length (by omega)
  have ht : (garbage.take 4).length = 4 := by simp [hg]
  simp only [client_frame, chat_message.encode_header, chat_message.body_length, hbl, hdat,
    chat_message.header_length, hc]
  rw [memcpy_at_zero _ _ _ hl]
  simp only [memcpy_at, List.take_length, List.append_assoc]
  rw [List.drop_left' ht]

theorem receive_frame_eq (slot : chat_message) (n : Nat) (b : List Nat) (hb : b.length = n)
    (hn : n ≤ 512) :
    receive_frame slot (sprintf_4d (n : Int) ++ b) =
      (true, ⟨sprintf_4d (n : Int) ++ (b ++ (slot.data_.drop 4).drop n), n⟩, []) := by
  have hl := (sprintf_4d_facts n hn).1
  have h1 : (sprintf_4d (n : Int) ++ b).take 4 = sprintf_4d (n : Int) := by
    rw [← hl]; exact List.take_left' rfl
  have h2 : (sprintf_4d (n : Int) ++ b).drop 4 = b := by
    rw [← hl]; exact List.drop_left' rfl
  have h3 : store_header slot (sprintf_4d (n : Int)) =
      ⟨sprintf_4d (n : Int) ++ slot.data_.drop 4, slot.body_length_⟩ := by
    simp only [store_header, hl]
    rw [memcpy_at_zero _ _ _ hl]
  subst hb
  simp only [receive_frame, chat_message.header_length, h1, h2, h3,
    decode_header_of_sprintf _ _ _ hn, chat_message.body_length, List.take_length,
    List.drop_length, store_body, memcpy_at]
  have h4 : (sprintf_4d (b.length : Int) ++ List.drop 4 slot.data_).take 4
      = sprintf_4d (b.length : Int) := by
    rw [← hl]; exact List.take_left' rfl
  have h5 : (sprintf_4d (b.length : Int) ++ List.drop 4 slot.data_).drop (4 + b.length)
      = (slot.data_.drop 4).drop b.length := by
    rw [← List.drop_drop]
    congr 1
    rw [← hl]; exact List.drop_left' rfl
  rw [h4, h5, List.append_assoc]

/-- C2. Frame round trip: for every body `b` of at most 512 bytes, the message
built as the client does (`body_length(|b|)`, copy `b` into `body()`,
`encode_header()`) has `length() = 4 + |b|`, its first `length()` bytes are
the 4-character header followed by `b`, and a receiver that reads 4 bytes,
runs `decode_header` and reads `body_length()` further bytes gets decode
success, `body_length() = |b|`, body bytes equal to `b`, and has consumed the
whole frame. -/
theorem frame_round_trip (garbage : List Nat) (slot : chat_message) (b : List Nat)
    (hg : garbage.length = 516) (hb : b.length ≤ 512) :
    (client_frame garbage b).length = 4 + b.length ∧
    (client_frame garbage b).wire = (client_frame garbage b).data_.take 4 ++ b ∧
    (client_frame garbage b).data_.take 4 = sprintf_4d (b.length : Int) ∧
    ((client_frame garbage b).data_.take 4).length = 4 ∧
    (receive_frame slot (client_frame garbage b).wire).1 = true ∧
    (receive_frame slot (client_frame garbage b).wire).2.1.body_length = b.length ∧
    (receive_frame slot (client_frame garbage b).wire).2.1.payload = b ∧
    (receive_frame slot (client_frame garbage b).wire).2.2 = [] := by
  have hl := (sprintf_4d_facts b.length hb).1
  have hw : (client_frame garbage b).wire = sprintf_4d (b.length : Int) ++ b := by
    rw [client_frame_eq garbage b hg hb]
    simp only [chat_message.wire, chat_message.length, chat_message.header_length]
    rw [← List.append_assoc]
    have : (sprintf_4d (b.length : Int) ++ b).length = 4 + b.length := by simp [hl]
    rw [← this]; exact List.take_left' rfl
  have ht : (client_frame garbage b).data_.take 4 = sprintf_4d (b.length : Int) := by
    rw [client_frame_eq garbage b hg hb]
    show (sprintf_4d (b.length : Int) ++ _).take 4 = _
    rw [← hl]; exact List.take_left' rfl
  rw [hw, ht, receive_frame_eq slot b.length b rfl hb]
  refine ⟨?_, rfl, rfl, hl, rfl, rfl, ?_, rfl⟩
  · rw [client_frame_eq garbage b hg hb]; rfl
  · simp only [chat_message.payload, chat_message.body, chat_message.header_length,
      chat_message.body_length]
    have h1 : (sprintf_4d (b.length : Int) ++ (b ++ List.drop b.length (List.drop 4 slot.data_))).drop 4
        = b ++ List.drop b.length (List.drop 4 slot.data_) := by
      rw [← hl]; exact List.drop_left' rfl
    rw [h1]
    exact List.take_left' rfl

/-- C2, witness: the body `hello` gives the wire bytes `"   5hello"`, which a
receiver decodes back to `hello`. -/
theorem frame_round_trip_witness :
    (List.replicate 516 0).length = 516 ∧ (bytes_of "hello").length ≤ 512 ∧
    (client_frame (List.replicate 516 0) (bytes_of "hello")).wire = bytes_of "   5hello" ∧
    (receive_frame (chat_message.new (List.replicate 516 0)) (bytes_of "   5hello")).1 = true ∧
    (receive_frame (chat_message.new (List.replicate 516 0))
      (bytes_of "   5hello")).2.1.payload = bytes_of "hello" := by
  have h := frame_round_trip (List.replicate 516 0) (chat_message.new (List.replicate 516 0))
    (bytes_of "hello") (List.length_replicate 516 0) (by decide)
  have hw : (client_frame (List.replicate 516 0) (bytes_of "hello")).wire
      = bytes_of "   5hello" := by
    rw [h.2.1, h.2.2.1]; decide
  rw [hw] at h
  exact ⟨List.length_replicate 516 0, by decide, hw, h.2.2.2.2.1, h.2.2.2.2.2.2.1⟩

theorem atoi_digits_lt (acc : Nat) (cs : List Nat) :
    atoi_digits acc cs < (acc + 1) * 10 ^ cs.length := by
  induction cs generalizing acc with
  | nil => simp [atoi_digits]
  | cons c cs ih =>
    have hpos : 0 < 10 ^ cs.length := by positivity
    simp only [atoi_digits, List.length_cons, pow_succ]
    split
    · rename_i hd
      simp only [isdigit, Bool.and_eq_true, decide_eq_true_eq] at hd
      calc atoi_digits (acc * 10 + (c - 48)) cs
          < (acc * 10 + (c - 48) + 1) * 10 ^ cs.length := ih _
        _ ≤ ((acc + 1) * 10) * 10 ^ cs.length := Nat.mul_le_mul_right _ (by omega)
        _ = (acc + 1) * (10 ^ cs.length * 10) := by ring
    · calc acc < acc + 1 := Nat.lt_succ_self _
        _ = (acc + 1) * 1 := (Nat.mul_one _).symm
        _ ≤ (acc + 1) * (10 ^ cs.length * 10) := Nat.mul_le_mul_left _ (by omega)

theorem atoi_digits_zero_lt (cs : List Nat) (n : Nat) (h : cs.length ≤ n) :
    atoi_digits 0 cs < 10 ^ n := by
  have h1 := atoi_digits_lt 0 cs
  have h2 : 10 ^ cs.length ≤ 10 ^ n := Nat.pow_le_pow_right (by decide) h
  omega

theorem atoi_bounds (s : List Nat) (n : Nat) (h : s.length ≤ n) :
    -((10 ^ n : Nat) : Int) < atoi s ∧ atoi s < ((10 ^ n : Nat) : Int) := by
  have hdl : (s.dropWhile isspace).length ≤ n :=
    le_trans (List.Sublist.length_le (List.dropWhile_sublist _)) h
  have hpos : 0 < 10 ^ n := by positivity
  unfold atoi
  split
  · omega
  · rename_i c cs heq
    rw [heq] at hdl
    have h1 := atoi_digits_zero_lt (c :: cs) n hdl
    have h2 := atoi_digits_zero_lt cs n (by simp at hdl; omega)
    split_ifs <;> omega

theorem strncat_empty_length_le (src : List Nat) (n : Nat) :
    (strncat_empty src n).length ≤ n :=
  le_trans (List.Sublist.length_le (List.takeWhile_sublist _)) (List.length_take_le n src)

theorem atoi_header_bounds (data : List Nat) :
    -10000 < atoi (strncat_empty data 4) ∧ atoi (strncat_empty data 4) < 10000 := by
  have h := atoi_bounds (strncat_empty data 4) 4 (strncat_empty_length_le _ _)
  norm_num at h
  exact h

theorem decode_header_eq (m : chat_message) :
    m.decode_header =
      if 512 < int_to_size_t (atoi (strncat_empty m.data_ 4)) then (false, ⟨m.data_, 0⟩)
      else (true, ⟨m.data_, int_to_size_t (atoi (strncat_empty m.data_ 4))⟩) := rfl

theorem int_to_size_t_header_nonneg (data : List Nat) (h0 : 0 ≤ atoi (strncat_empty data 4)) :
    int_to_size_t (atoi (strncat_empty data 4)) = (atoi (strncat_empty data 4)).toNat := by
  have hb := atoi_header_bounds data
  exact int_to_size_t_nonneg _ h0 (by omega)

theorem int_to_size_t_header_neg (data : List Nat) (h0 : atoi (strncat_empty data 4) < 0) :
    512 < int_to_size_t (atoi (strncat_empty data 4)) := by
  have hb := atoi_header_bounds data
  unfold int_to_size_t
  norm_num
  omega

theorem decode_header_ok_le (m : chat_message) (h : m.decode_header.1 = true) :
    m.decode_header.2.body_length_ ≤ 512 := by
  rw [decode_header_eq] at h ⊢
  split_ifs at h ⊢ with hc
  exact Nat.le_of_not_lt hc

/-- C3. `decode_header` fails exactly on oversize lengths: when the header text
parses (`atoi`, leading white space skipped) to a non-negative value `v`, then
`decode_header` returns `false` and leaves `body_length() = 0` if `v > 512`,
and returns `true` and leaves `body_length() = v` otherwise; the buffer is not
changed.  After every successful `decode_header`, `body_length() ≤ 512`. -/
theorem decode_header_oversize (m : chat_message)
    (h0 : 0 ≤ atoi (strncat_empty m.data_ chat_message.header_length)) :
    (512 < atoi (strncat_empty m.data_ chat_message.header_length) →
      m.decode_header = (false, ⟨m.data_, 0⟩)) ∧
    (atoi (strncat_empty m.data_ chat_message.header_length) ≤ 512 →
      m.decode_header =
        (true, ⟨m.data_, (atoi (strncat_empty m.data_ chat_message.header_length)).toNat⟩)) ∧
    (m.decode_header.1 = false ↔
      512 < atoi (strncat_empty m.data_ chat_message.header_length)) ∧
    (∀ m2 : chat_message, m2.decode_header.1 = true → m2.decode_header.2.body_length ≤ 512) := by
  simp only [chat_message.header_length] at h0 ⊢
  have hv := int_to_size_t_header_nonneg m.data_ h0
  rw [decode_header_eq, hv]
  refine ⟨?_, ?_, ?_, fun m2 h => decode_header_ok_le m2 h⟩
  · intro h
    rw [if_pos (by omega)]
  · intro h
    rw [if_neg (by omega)]
  · split_ifs with hc
    · simp only [true_iff]; omega
    · simp only [Bool.true_eq_false, false_iff]; omega

/-- C3, witnesses: the headers `" 513"` and `" 600"` fail and reset the length to 0,
the header `" 512"` succeeds with length 512. -/
theorem decode_header_oversize_witness :
    chat_message.decode_header ⟨bytes_of " 513" ++ List.replicate 512 0, 7⟩
      = (false, ⟨bytes_of " 513" ++ List.replicate 512 0, 0⟩) ∧
    chat_message.decode_header ⟨bytes_of " 600" ++ List.replicate 512 0, 7⟩
      = (false, ⟨bytes_of " 600" ++ List.replicate 512 0, 0⟩) ∧
    chat_message.decode_header ⟨bytes_of " 512" ++ List.replicate 512 0, 7⟩
      = (true, ⟨bytes_of " 512" ++ List.replicate 512 0, 512⟩) :=
  ⟨(decode_header_oversize ⟨bytes_of " 513" ++ List.replicate 512 0, 7⟩ (by decide)).1
      (by decide),
   (decode_header_oversize ⟨bytes_of " 600" ++ List.replicate 512 0, 7⟩ (by decide)).1
      (by decide),
   (decode_header_oversize ⟨bytes_of " 512" ++ List.replicate 512 0, 7⟩ (by decide)).2.1
      (by decide)⟩

theorem fmt_d_map_digits (l : List Nat) (h : ∀ c ∈ l, 48 ≤ c ∧ c ≤ 57) :
    (l.map (fun c => c - 48)).map (fun d => 48 + d) = l := by
  induction l with
  | nil => rfl
  | cons c cs ih =>
    have hc := h c (List.mem_cons_self _ _)
    have ih2 := ih (fun x hx => h x (List.mem_cons_of_mem _ hx))
    simp only [List.map_cons, ih2]
    congr 1
    omega

/-- C4. `encode_header` format: for every message (buffer of 516 bytes) with
`body_length() ≤ 512`, `encode_header` changes only the first 4 bytes of the
buffer (length, `body_length_` and all bytes from offset 4 on are kept), and
those 4 bytes are spaces followed by the canonical decimal digits of
`body_length()` (non-empty, no leading zero except for `0` itself, value
`body_length()`), so that `atoi` of them is exactly `body_length()`. -/
theorem encode_header_format (m : chat_message) (hlen : m.data_.length = 516)
    (hb : m.body_length ≤ 512) :
    m.encode_header.body_length = m.body_length ∧
    m.encode_header.data_.length = 516 ∧
    m.encode_header.data_.drop 4 = m.data_.drop 4 ∧
    m.encode_header.body = m.body ∧
    (m.encode_header.data_.take 4).length = 4 ∧
    atoi (m.encode_header.data_.take 4) = (m.body_length : Int) ∧
    ∃ ds : List Nat, ds ≠ [] ∧ ds.length ≤ 4 ∧ (∀ d ∈ ds, d < 10) ∧
      (ds.head? = some 0 → ds = [0]) ∧ decimal_value ds = m.body_length ∧
      m.encode_header.data_.take 4
        = List.replicate (4 - ds.length) 32 ++ ds.map (fun d => 48 + d) := by
  simp only [chat_message.body_length] at hb ⊢
  obtain ⟨hl, _, ha⟩ := sprintf_4d_facts m.body_length_ hb
  obtain ⟨hne, hle, hdig, hhead, hval⟩ := sprintf_4d_digits m.body_length_ hb
  have hd := encode_header_data m hb
  have ht : m.encode_header.data_.take 4 = sprintf_4d (m.body_length_ : Int) := by
    rw [hd, ← hl]; exact List.take_left' rfl
  have hdr : m.encode_header.data_.drop 4 = m.data_.drop 4 := by
    rw [hd, ← hl]; exact List.drop_left' rfl
  refine ⟨rfl, ?_, hdr, hdr, ?_, ?_, (fmt_d (m.body_length_ : Int)).map (fun c => c - 48),
    ?_, ?_, ?_, ?_, hval, ?_⟩
  · rw [hd, List.length_append, hl, List.length_drop, hlen]
  · rw [ht, hl]
  · rw [ht, ha]
  · intro h
    exact hne (List.map_eq_nil_iff.mp h)
  · rw [List.length_map]; exact hle
  · intro d hd2
    obtain ⟨c, hc, rfl⟩ := List.mem_map.mp hd2
    have := hdig c hc
    omega
  · intro h
    cases hf : fmt_d (m.body_length_ : Int) with
    | nil => exact absurd hf hne
    | cons c cs =>
      rw [hf] at h hhead hdig
      simp only [List.map_cons, List.head?_cons, Option.some.injEq] at h
      have hc := hdig c (List.mem_cons_self _ _)
      have hc48 : c = 48 := by omega
      subst hc48
      have := hhead rfl
      simp only [List.cons.injEq, true_and] at this
      subst this
      rfl
  · rw [ht, fmt_d_map_digits _ hdig, List.length_map]
    rfl

/-- C4, witnesses: body lengths 12, 0 and 512 give the headers `"  12"`, `"   0"`
and `" 512"`; the rest of the buffer is kept. -/
theorem encode_header_format_witness :
    (List.replicate 516 7).length = 516 ∧
    (chat_message.encode_header ⟨List.replicate 516 7, 12⟩).data_.take 4 = bytes_of "  12" ∧
    (chat_message.encode_header ⟨List.replicate 516 7, 0⟩).data_.take 4 = bytes_of "   0" ∧
    (chat_message.encode_header ⟨List.replicate 516 7, 512⟩).data_.take 4 = bytes_of " 512" ∧
    (chat_message.encode_header ⟨List.replicate 516 7, 12⟩).data_.drop 4
      = (List.replicate 516 7).drop 4 ∧
    atoi ((chat_message.encode_header ⟨List.replicate 516 7, 12⟩).data_.take 4) = 12 :=
  ⟨List.length_replicate 516 7, by decide, by decide, by decide,
   (encode_header_format ⟨List.replicate 516 7, 12⟩ (List.length_replicate 516 7)
      (by decide)).2.2.1,
   (encode_header_format ⟨List.replicate 516 7, 12⟩ (List.length_replicate 516 7)
      (by decide)).2.2.2.2.2.1⟩

/-! ## The header-read completion handler -/

theorem store_header_four (m : chat_message) (h : List Nat) (hlen : h.length = 4) :
    store_header m h = ⟨h ++ m.data_.drop 4, m.body_length_⟩ := by
  simp only [store_header, hlen]
  rw [memcpy_at_zero _ _ _ hlen]

theorem strncat_empty_header (h rest : List Nat) (hlen : h.length = 4) :
    strncat_empty (h ++ rest) 4 = strncat_empty h 4 := by
  unfold strncat_empty
  have h1 : (h ++ rest).take 4 = h := by rw [← hlen]; exact List.take_left' rfl
  have h2 : h.take 4 = h := by rw [← hlen]; exact List.take_length h
  rw [h1, h2]

theorem decode_header_reject (h rest : List Nat) (bl : Nat) (hlen : h.length = 4)
    (hv : 512 < int_to_size_t (atoi (strncat_empty h 4))) :
    chat_message.decode_header ⟨h ++ rest, bl⟩ = (false, ⟨h ++ rest, 0⟩) := by
  rw [decode_header_eq]
  simp only [strncat_empty_header h rest hlen]
  rw [if_pos hv]

theorem decode_header_accept (h rest : List Nat) (bl : Nat) (hlen : h.length = 4)
    (hv : int_to_size_t (atoi (strncat_empty h 4)) ≤ 512) :
    chat_message.decode_header ⟨h ++ rest, bl⟩ =
      (true, ⟨h ++ rest, int_to_size_t (atoi (strncat_empty h 4))⟩) := by
  rw [decode_header_eq]
  simp only [strncat_empty_header h rest hlen]
  rw [if_neg (by omega)]

theorem session_on_read_header_reject (w : server_state) (self : Nat) (h : List Nat)
    (hlen : h.length = 4) (hv : 512 < int_to_size_t (atoi (strncat_empty h 4))) :
    chat_session.on_read_header w self false h =
      { room_ := w.room_.leave self
        sessions := Function.update w.sessions self
          { read_msg_ := ⟨h ++ (w.sessions self).read_msg_.data_.drop 4, 0⟩
            write_msgs_ := (w.sessions self).write_msgs_
            pending := (w.sessions self).pending.erase async_op.read_header } } := by
  simp only [chat_session.on_read_header, store_header_four _ h hlen,
    decode_header_reject h _ _ hlen hv, Bool.not_false, if_true]

theorem session_on_read_header_accept (w : server_state) (self : Nat) (h : List Nat)
    (hlen : h.length = 4) (hv : int_to_size_t (atoi (strncat_empty h 4)) ≤ 512) :
    chat_session.on_read_header w self false h =
      { room_ := w.room_
        sessions := Function.update w.sessions self
          { read_msg_ := ⟨h ++ (w.sessions self).read_msg_.data_.drop 4,
              int_to_size_t (atoi (strncat_empty h 4))⟩
            write_msgs_ := (w.sessions self).write_msgs_
            pending := (w.sessions self).pending.erase async_op.read_header ++
              [async_op.read_body (int_to_size_t (atoi (strncat_empty h 4)))] } } := by
  simp only [chat_session.on_read_header, store_header_four _ h hlen,
    decode_header_accept h _ _ hlen hv, Bool.not_false, if_true, chat_session.do_read_body,
    chat_message.body_length]

theorem client_on_read_header_reject (c : chat_client) (h : List Nat)
    (hlen : h.length = 4) (hv : 512 < int_to_size_t (atoi (strncat_empty h 4))) :
    c.on_read_header false h =
      { socket_open := false
        read_msg_ := ⟨h ++ c.read_msg_.data_.drop 4, 0⟩
        write_msgs_ := c.write_msgs_
        pending := c.pending.erase async_op.read_header } := by
  simp only [chat_client.on_read_header, store_header_four _ h hlen,
    decode_header_reject h _ _ hlen hv, Bool.not_false, if_true]

theorem client_on_read_header_accept (c : chat_client) (h : List Nat)
    (hlen : h.length = 4) (hv : int_to_size_t (atoi (strncat_empty h 4)) ≤ 512) :
    c.on_read_header false h =
      { socket_open := c.socket_open
        read_msg_ := ⟨h ++ c.read_msg_.data_.drop 4, int_to_size_t (atoi (strncat_empty h 4))⟩
        write_msgs_ := c.write_msgs_
        pending := c.pending.erase async_op.read_header ++
          [async_op.read_body (int_to_size_t (atoi (strncat_empty h 4)))] } := by
  simp only [chat_client.on_read_header, store_header_four _ h hlen,
    decode_header_accept h _ _ hlen hv, Bool.not_false, if_true, chat_client.do_read_body,
    chat_message.body_length]

theorem set_erase_not_mem (p : Nat) (l : List Nat) (hwf : set_wf l) : p ∉ set_erase p l := by
  induction l with
  | nil => simp [set_erase]
  | cons q qs ih =>
    unfold set_wf at hwf ih
    rw [List.pairwise_cons] at hwf
    simp only [set_erase]
    split_ifs with hpq
    · subst hpq
      intro hmem
      exact Nat.lt_irrefl _ (hwf.1 p hmem)
    · intro hmem
      rcases List.mem_cons.mp hmem with h1 | h1
      · exact hpq h1
      · exact ih hwf.2 h1

/-- C5. Negative headers are rejected: for every 4-byte header whose text parses
to a negative integer, `decode_header` returns `false` with `body_length() = 0`
(the negative `int` stored into the unsigned size exceeds 512); the header
handler of the server session calls `room_.leave` (the session is no longer a
participant) and starts no body read; the header handler of the client closes
its socket and starts no body read. -/
theorem negative_header_rejected (w : server_state) (self : Nat) (c : chat_client)
    (h : List Nat) (hwf : set_wf w.room_.participants_) (hlen : h.length = 4)
    (hneg : atoi (strncat_empty h chat_message.header_length) < 0) :
    512 < int_to_size_t (atoi (strncat_empty h chat_message.header_length)) ∧
    (∀ (rest : List Nat) (bl : Nat),
      chat_message.decode_header ⟨h ++ rest, bl⟩ = (false, ⟨h ++ rest, 0⟩)) ∧
    (chat_session.on_read_header w self false h).room_ = w.room_.leave self ∧
    self ∉ (chat_session.on_read_header w self false h).room_.participants_ ∧
    ((chat_session.on_read_header w self false h).sessions self).read_msg_.body_length = 0 ∧
    ((chat_session.on_read_header w self false h).sessions self).pending
      = (w.sessions self).pending.erase async_op.read_header ∧
    (c.on_read_header false h).socket_open = false ∧
    (c.on_read_header false h).read_msg_.body_length = 0 ∧
    (c.on_read_header false h).pending = c.pending.erase async_op.read_header := by
  simp only [chat_message.header_length] at hneg ⊢
  have hv2 : 512 < int_to_size_t (atoi (strncat_empty h 4)) :=
    int_to_size_t_header_neg h hneg
  rw [session_on_read_header_reject w self h hlen hv2, client_on_read_header_reject c h hlen hv2]
  refine ⟨hv2, fun rest bl => decode_header_reject h rest bl hlen hv2, rfl,
    set_erase_not_mem self _ hwf, ?_, ?_, rfl, rfl, rfl⟩
  · simp [chat_message.body_length]
  · simp

/-- C5, witnesses: the headers `"  -1"` and `"-999"`. -/
theorem negative_header_rejected_witness :
    atoi (strncat_empty (bytes_of "  -1") 4) = -1 ∧
    atoi (strncat_empty (bytes_of "-999") 4) = -999 ∧
    (∀ (rest : List Nat) (bl : Nat),
      chat_message.decode_header ⟨bytes_of "  -1" ++ rest, bl⟩
        = (false, ⟨bytes_of "  -1" ++ rest, 0⟩)) ∧
    (∀ (rest : List Nat) (bl : Nat),
      chat_message.decode_header ⟨bytes_of "-999" ++ rest, bl⟩
        = (false, ⟨bytes_of "-999" ++ rest, 0⟩)) ∧
    (chat_session.on_read_header
        ⟨⟨[1, 2], []⟩, fun _ => ⟨chat_message.new (List.replicate 516 0), [],
          [async_op.read_header]⟩⟩ 1 false (bytes_of "  -1")).room_.participants_ = [2] ∧
    ((chat_session.on_read_header
        ⟨⟨[1, 2], []⟩, fun _ => ⟨chat_message.new (List.replicate 516 0), [],
          [async_op.read_header]⟩⟩ 1 false (bytes_of "  -1")).sessions 1).pending = [] :=
  ⟨by decide, by decide,
   (negative_header_rejected
      ⟨⟨[1, 2], []⟩, fun _ => ⟨chat_message.new (List.replicate 516 0), [],
        [async_op.read_header]⟩⟩ 1
      ⟨true, chat_message.new (List.replicate 516 0), [], [async_op.read_header]⟩
      (bytes_of "  -1") (by decide) (by decide) (by decide)).2.1,
   (negative_header_rejected
      ⟨⟨[1, 2], []⟩, fun _ => ⟨chat_message.new (List.replicate 516 0), [],
        [async_op.read_header]⟩⟩ 1
      ⟨true, chat_message.new (List.replicate 516 0), [], [async_op.read_header]⟩
      (bytes_of "-999") (by decide) (by decide) (by decide)).2.1,
   by decide, by decide⟩

theorem atoi_digits_no_digit (acc : Nat) (cs : List Nat)
    (h : ∀ c ∈ cs, isdigit c = false) : atoi_digits acc cs = acc := by
  cases cs with
  | nil => rfl
  | cons c cs => simp [atoi_digits, h c (List.mem_cons_self _ _)]

theorem atoi_no_digit (s : List Nat) (h : ∀ c ∈ s, isdigit c = false) : atoi s = 0 := by
  have hsub : ∀ c ∈ s.dropWhile isspace, isdigit c = false :=
    fun c hc => h c ((List.dropWhile_sublist _).subset hc)
  unfold atoi
  split
  · rfl
  · rename_i c cs heq
    rw [heq] at hsub
    have h1 := atoi_digits_no_digit 0 (c :: cs) hsub
    have h2 := atoi_digits_no_digit 0 cs (fun x hx => hsub x (List.mem_cons_of_mem _ hx))
    rw [h1, h2]
    simp

theorem strncat_empty_subset (src : List Nat) (n : Nat) :
    ∀ c ∈ strncat_empty src n, c ∈ src :=
  fun _ hc => (List.take_sublist n src).subset ((List.takeWhile_sublist _).subset hc)

/-- C6, counterexample: the header `"abcd"` is not a decode failure.  `decode_header`
returns `true` with `body_length() = 0`; the session's header handler keeps
the session in the room and starts a body read of 0 bytes; the client keeps
its socket open and starts a body read of 0 bytes. -/
theorem malformed_header_accepted :
    (chat_message.decode_header ⟨bytes_of "abcd" ++ List.replicate 512 0, 7⟩).1 = true ∧
    (chat_message.decode_header
      ⟨bytes_of "abcd" ++ List.replicate 512 0, 7⟩).2.body_length = 0 ∧
    (chat_session.on_read_header
        ⟨⟨[1, 2], []⟩, fun _ => ⟨chat_message.new (List.replicate 516 0), [],
          [async_op.read_header]⟩⟩ 1 false (bytes_of "abcd")).room_.participants_ = [1, 2] ∧
    ((chat_session.on_read_header
        ⟨⟨[1, 2], []⟩, fun _ => ⟨chat_message.new (List.replicate 516 0), [],
          [async_op.read_header]⟩⟩ 1 false (bytes_of "abcd")).sessions 1).pending
      = [async_op.read_body 0] ∧
    (chat_client.on_read_header
        ⟨true, chat_message.new (List.replicate 516 0), [], [async_op.read_header]⟩
        false (bytes_of "abcd")).socket_open = true ∧
    (chat_client.on_read_header
        ⟨true, chat_message.new (List.replicate 516 0), [], [async_op.read_header]⟩
        false (bytes_of "abcd")).pending = [async_op.read_body 0] := by
  decide

/-- C6, amended. The header handler decides on the value `atoi` reads from the
four bytes (converted to `std::size_t`), not on whether every byte is a digit.
If that value exceeds 512, `decode_header` fails and the handler does what it
does on an I/O error: the session leaves the room (the client closes its
socket) and no body read is started.  Otherwise `decode_header` succeeds, the
room is not touched (the client socket stays as it is) and a body read of
that many bytes is started.  A header without any digit (such as `"abcd"`)
parses as 0 and is therefore accepted as a zero-length body. -/
theorem header_handler_by_parsed_value (w : server_state) (self : Nat) (c : chat_client)
    (h : List Nat) (hlen : h.length = 4) :
    (512 < int_to_size_t (atoi (strncat_empty h chat_message.header_length)) →
      (∀ (rest : List Nat) (bl : Nat),
        (chat_message.decode_header ⟨h ++ rest, bl⟩).1 = false) ∧
      (chat_session.on_read_header w self false h).room_ = w.room_.leave self ∧
      (chat_session.on_read_header w self false h).room_
        = (chat_session.on_read_header w self true h).room_ ∧
      ((chat_session.on_read_header w self false h).sessions self).pending
        = ((chat_session.on_read_header w self true h).sessions self).pending ∧
      ((chat_session.on_read_header w self false h).sessions self).pending
        = (w.sessions self).pending.erase async_op.read_header ∧
      (c.on_read_header false h).socket_open = false ∧
      (c.on_read_header false h).pending = c.pending.erase async_op.read_header) ∧
    (int_to_size_t (atoi (strncat_empty h chat_message.header_length)) ≤ 512 →
      (∀ (rest : List Nat) (bl : Nat),
        chat_message.decode_header ⟨h ++ rest, bl⟩ = (true, ⟨h ++ rest,
          int_to_size_t (atoi (strncat_empty h chat_message.header_length))⟩)) ∧
      (chat_session.on_read_header w self false h).room_ = w.room_ ∧
      ((chat_session.on_read_header w self false h).sessions self).pending
        = (w.sessions self).pending.erase async_op.read_header ++ [async_op.read_body
            (int_to_size_t (atoi (strncat_empty h chat_message.header_length)))] ∧
      (c.on_read_header false h).socket_open = c.socket_open ∧
      (c.on_read_header false h).pending
        = c.pending.erase async_op.read_header ++ [async_op.read_body
            (int_to_size_t (atoi (strncat_empty h chat_message.header_length)))]) ∧
    ((∀ b ∈ h, isdigit b = false) →
      int_to_size_t (atoi (strncat_empty h chat_message.header_length)) = 0) := by
  simp only [chat_message.header_length]
  refine ⟨fun hv => ?_, fun hv => ?_, fun hnd => ?_⟩
  · rw [session_on_read_header_reject w self h hlen hv, client_on_read_header_reject c h hlen hv]
    refine ⟨fun rest bl => by rw [decode_header_reject h rest bl hlen hv], rfl, ?_, ?_, ?_,
      rfl, rfl⟩
    · simp [chat_session.on_read_header]
    · simp [chat_session.on_read_header]
    · simp
  · rw [session_on_read_header_accept w self h hlen hv, client_on_read_header_accept c h hlen hv]
    refine ⟨fun rest bl => decode_header_accept h rest bl hlen hv, rfl, ?_, rfl, rfl⟩
    simp
  · rw [atoi_no_digit _ (fun b hb => hnd b (strncat_empty_subset h 4 b hb))]
    rfl

/-- C6 amended, witness: `"abcd"` is accepted with length 0, `"999a"` is rejected. -/
theorem header_handler_by_parsed_value_witness :
    (bytes_of "abcd").length = 4 ∧
    (∀ (rest : List Nat) (bl : Nat),
      chat_message.decode_header ⟨bytes_of "abcd" ++ rest, bl⟩
        = (true, ⟨bytes_of "abcd" ++ rest, 0⟩)) ∧
    (bytes_of "999a").length = 4 ∧
    (∀ (rest : List Nat) (bl : Nat),
      (chat_message.decode_header ⟨bytes_of "999a" ++ rest, bl⟩).1 = false) :=
  ⟨by decide,
   ((header_handler_by_parsed_value
      ⟨⟨[1, 2], []⟩, fun _ => ⟨chat_message.new (List.replicate 516 0), [],
        [async_op.read_header]⟩⟩ 1
      ⟨true, chat_message.new (List.replicate 516 0), [], [async_op.read_header]⟩
      (bytes_of "abcd") (by decide)).2.1 (by decide)).1,
   by decide,
   ((header_handler_by_parsed_value
      ⟨⟨[1, 2], []⟩, fun _ => ⟨chat_message.new (List.replicate 516 0), [],
        [async_op.read_header]⟩⟩ 1
      ⟨true, chat_message.new (List.replicate 516 0), [], [async_op.read_header]⟩
      (bytes_of "999a") (by decide)).1 (by decide)).1⟩

/-! ## The room -/

theorem pop_front_loop_eq (l : List chat_message) :
    pop_front_loop l = l.drop (l.length - 100) := by
  induction l with
  | nil => rfl
  | cons m ms ih =>
    simp only [pop_front_loop, max_recent_msgs, List.length_cons]
    split_ifs with hc
    · rw [ih]
      have : ms.length + 1 - 100 = (ms.length - 100) + 1 := by omega
      rw [this, List.drop_succ_cons]
    · have : ms.length + 1 - 100 = 0 := by omega
      rw [this, List.drop_zero]

theorem pop_front_loop_length (l : List chat_message) : (pop_front_loop l).length ≤ 100 := by
  rw [pop_front_loop_eq, List.length_drop]
  omega

theorem fold_participant_deliver_room (w : server_state) (p : Nat) (l : List chat_message) :
    (l.foldl (fun acc msg => participant_deliver acc p msg) w).room_ = w.room_ := by
  induction l generalizing w with
  | nil => rfl
  | cons m ms ih => rw [List.foldl_cons, ih]; rfl

theorem fold_deliver_participants_room (w : server_state) (msg : chat_message) (l : List Nat) :
    (l.foldl (fun acc p => participant_deliver acc p msg) w).room_ = w.room_ := by
  induction l generalizing w with
  | nil => rfl
  | cons q qs ih => rw [List.foldl_cons, ih]; rfl

theorem join_room (w : server_state) (p : Nat) :
    (chat_room.join w p).room_ = ⟨set_insert p w.room_.participants_, w.room_.recent_msgs_⟩ := by
  unfold chat_room.join
  exact fold_participant_deliver_room _ _ _

theorem deliver_room (w : server_state) (msg : chat_message) :
    (chat_room.deliver w msg).room_ =
      ⟨w.room_.participants_, pop_front_loop (w.room_.recent_msgs_ ++ [msg])⟩ := by
  unfold chat_room.deliver
  exact fold_deliver_participants_room _ _ _

theorem run_recent_length (w : server_state) (c : room_call)
    (h : w.room_.recent_msgs_.length ≤ 100) : (c.run w).room_.recent_msgs_.length ≤ 100 := by
  cases c with
  | join p => simp only [room_call.run, join_room]; exact h
  | leave p => exact h
  | deliver msg => simp only [room_call.run, deliver_room]; exact pop_front_loop_length _

theorem foldl_run_recent_length (calls : List room_call) (w : server_state)
    (h : w.room_.recent_msgs_.length ≤ 100) :
    (calls.foldl room_call.run w).room_.recent_msgs_.length ≤ 100 := by
  induction calls generalizing w with
  | nil => exact h
  | cons c cs ih => exact ih _ (run_recent_length w c h)

/-- C7. History bound invariant: in every room state reached from the empty room
by any sequence of `join`, `leave` and `deliver` calls (whatever the session
objects are), the recent-message history holds at most 100 messages. -/
theorem history_bound (sessions : Nat → chat_session) (calls : List room_call) :
    (calls.foldl room_call.run ⟨chat_room.empty, sessions⟩).room_.recent_msgs_.length
      ≤ max_recent_msgs :=
  foldl_run_recent_length calls _ (Nat.zero_le _)

theorem mem_set_insert (p x : Nat) (l : List Nat) : x ∈ set_insert p l ↔ x = p ∨ x ∈ l := by
  induction l with
  | nil => simp [set_insert]
  | cons q qs ih =>
    simp only [set_insert]
    split_ifs with h1 h2
    · simp
    · subst h2; simp
    · simp only [List.mem_cons, ih]
      tauto

theorem set_insert_wf (p : Nat) (l : List Nat) (hwf : set_wf l) : set_wf (set_insert p l) := by
  induction l with
  | nil => simp [set_insert, set_wf]
  | cons q qs ih =>
    unfold set_wf at hwf ih ⊢
    rw [List.pairwise_cons] at hwf
    simp only [set_insert]
    split_ifs with h1 h2
    · refine List.pairwise_cons.mpr ⟨?_, List.pairwise_cons.mpr hwf⟩
      intro x hx
      rcases List.mem_cons.mp hx with rfl | hx
      · exact h1
      · exact Nat.lt_trans h1 (hwf.1 x hx)
    · exact List.pairwise_cons.mpr hwf
    · refine List.pairwise_cons.mpr ⟨?_, ih hwf.2⟩
      intro x hx
      rcases (mem_set_insert p x qs).mp hx with rfl | hx
      · omega
      · exact hwf.1 x hx

theorem set_erase_sublist (p : Nat) (l : List Nat) : (set_erase p l).Sublist l := by
  induction l with
  | nil => exact List.Sublist.refl _
  | cons q qs ih =>
    simp only [set_erase]
    split_ifs
    · exact List.sublist_cons_self _ _
    · exact ih.cons₂ _

theorem set_erase_wf (p : Nat) (l : List Nat) (hwf : set_wf l) : set_wf (set_erase p l) :=
  List.Pairwise.sublist (set_erase_sublist p l) hwf

theorem set_erase_of_not_mem (p : Nat) (l : List Nat) (h : p ∉ l) : set_erase p l = l := by
  induction l with
  | nil => rfl
  | cons q qs ih =>
    simp only [List.mem_cons, not_or] at h
    simp only [set_erase, if_neg h.1, ih h.2]

theorem set_wf_nodup (l : List Nat) (hwf : set_wf l) : l.Nodup :=
  List.Pairwise.imp (fun h => Nat.ne_of_lt h) hwf

/-- Every room reached from the empty room has a well-formed participant set. -/
theorem participants_wf (sessions : Nat → chat_session) (calls : List room_call) :
    set_wf (calls.foldl room_call.run ⟨chat_room.empty, sessions⟩).room_.participants_ := by
  have key : ∀ (cs : List room_call) (w : server_state), set_wf w.room_.participants_ →
      set_wf (cs.foldl room_call.run w).room_.participants_ := by
    intro cs
    induction cs with
    | nil => intro w h; exact h
    | cons c cs ih =>
      intro w h
      apply ih
      cases c with
      | join p => simp only [room_call.run, join_room]; exact set_insert_wf p _ h
      | leave p => exact set_erase_wf p _ h
      | deliver msg => simp only [room_call.run, deliver_room]; exact h
  exact key calls _ List.Pairwise.nil

theorem deliver_write_msgs (s : chat_session) (msg : chat_message) :
    (s.deliver msg).write_msgs_ = s.write_msgs_ ++ [msg] := by
  unfold chat_session.deliver
  simp only
  split
  · unfold chat_session.do_write
    split <;> rfl
  · rfl

theorem foldl_deliver_write_msgs (l : List chat_message) (s : chat_session) :
    (l.foldl chat_session.deliver s).write_msgs_ = s.write_msgs_ ++ l := by
  induction l generalizing s with
  | nil => simp
  | cons m ms ih => rw [List.foldl_cons, ih, deliver_write_msgs, List.append_assoc]; rfl

theorem fold_participant_deliver_sessions (w : server_state) (p : Nat) (l : List chat_message) :
    (l.foldl (fun acc msg => participant_deliver acc p msg) w).sessions =
      Function.update w.sessions p (l.foldl chat_session.deliver (w.sessions p)) := by
  induction l generalizing w with
  | nil => simp
  | cons m ms ih =>
    rw [List.foldl_cons, ih]
    simp [participant_deliver]

theorem join_sessions (w : server_state) (p : Nat) :
    (chat_room.join w p).sessions =
      Function.update w.sessions p (w.room_.recent_msgs_.foldl chat_session.deliver (w.sessions p)) := by
  unfold chat_room.join
  exact fold_participant_deliver_sessions _ _ _

theorem foldl_deliver_recent (msgs : List chat_message) (w : server_state)
    (h : w.room_.recent_msgs_.length ≤ 100) :
    (msgs.foldl chat_room.deliver w).room_.recent_msgs_ =
      (w.room_.recent_msgs_ ++ msgs).drop ((w.room_.recent_msgs_ ++ msgs).length - 100) := by
  induction msgs generalizing w with
  | nil =>
    have : (w.room_.recent_msgs_ ++ []).length - 100 = 0 := by simp; omega
    rw [this]; simp
  | cons m ms ih =>
    have hlen : (chat_room.deliver w m).room_.recent_msgs_.length ≤ 100 := by
      rw [deliver_room]; exact pop_front_loop_length _
    rw [List.foldl_cons, ih _ hlen, deliver_room, pop_front_loop_eq]
    simp only
    have hk : (w.room_.recent_msgs_ ++ [m]).length - 100 ≤ (w.room_.recent_msgs_ ++ [m]).length :=
      Nat.sub_le _ _
    rw [← List.drop_append_of_le_length hk, List.drop_drop]
    have e1 : w.room_.recent_msgs_ ++ [m] ++ ms = w.room_.recent_msgs_ ++ m :: ms := by simp
    rw [e1]
    have hn : (w.room_.recent_msgs_ ++ [m]).length - 100 +
        ((List.drop ((w.room_.recent_msgs_ ++ [m]).length - 100)
          (w.room_.recent_msgs_ ++ m :: ms)).length - 100)
        = (w.room_.recent_msgs_ ++ m :: ms).length - 100 := by
      simp only [List.length_drop, List.length_append, List.length_cons, List.length_nil]
      omega
    rw [hn]

theorem foldl_deliver_participants (msgs : List chat_message) (w : server_state) :
    (msgs.foldl chat_room.deliver w).room_.participants_ = w.room_.participants_ := by
  induction msgs generalizing w with
  | nil => rfl
  | cons m ms ih => rw [List.foldl_cons, ih, deliver_room]

/-- C8. History replay on join: after the messages `msgs` have been delivered
through `room.deliver` to a room whose history was empty, a participant `p`
that calls `join` is a member afterwards and has `deliver` invoked on it
exactly for the last `min |msgs| 100` of those messages, in delivery order:
its session is the result of these `deliver` calls, so its send queue grows
by exactly these messages; no other session and nothing of the history is
touched by the `join`. -/
theorem history_replay_on_join (w : server_state) (msgs : List chat_message) (p : Nat)
    (hempty : w.room_.recent_msgs_ = []) :
    p ∈ (chat_room.join (msgs.foldl chat_room.deliver w) p).room_.participants_ ∧
    (chat_room.join (msgs.foldl chat_room.deliver w) p).sessions p
      = (msgs.drop (msgs.length - 100)).foldl chat_session.deliver
          ((msgs.foldl chat_room.deliver w).sessions p) ∧
    ((chat_room.join (msgs.foldl chat_room.deliver w) p).sessions p).write_msgs_
      = ((msgs.foldl chat_room.deliver w).sessions p).write_msgs_
          ++ msgs.drop (msgs.length - 100) ∧
    (msgs.drop (msgs.length - 100)).length = min msgs.length 100 ∧
    (∀ q, q ≠ p → (chat_room.join (msgs.foldl chat_room.deliver w) p).sessions q
      = (msgs.foldl chat_room.deliver w).sessions q) ∧
    (chat_room.join (msgs.foldl chat_room.deliver w) p).room_.recent_msgs_
      = msgs.drop (msgs.length - 100) := by
  have hrec : (msgs.foldl chat_room.deliver w).room_.recent_msgs_
      = msgs.drop (msgs.length - 100) := by
    rw [foldl_deliver_recent msgs w (by rw [hempty]; exact Nat.zero_le _), hempty]
    rfl
  rw [join_room, join_sessions, hrec]
  refine ⟨(mem_set_insert p p _).mpr (Or.inl rfl), ?_, ?_, ?_, ?_, rfl⟩
  · simp
  · simp [foldl_deliver_write_msgs]
  · rw [List.length_drop]; omega
  · intro q hq
    exact Function.update_noteq hq _ _

theorem foldl_deliver_sessions_of_empty (msgs : List chat_message) (w : server_state)
    (h : w.room_.participants_ = []) : (msgs.foldl chat_room.deliver w).sessions = w.sessions := by
  induction msgs generalizing w with
  | nil => rfl
  | cons m ms ih =>
    have hp : (chat_room.deliver w m).room_.participants_ = [] := by rw [deliver_room]; exact h
    rw [List.foldl_cons, ih _ hp]
    unfold chat_room.deliver
    simp only [h, List.foldl_nil]

/-- C8, witnesses: after 150 delivers (`m1 … m150`) a joiner receives exactly
`m51 … m150` in order; after 3 delivers it receives `m1, m2, m3`. -/
theorem history_replay_on_join_witness :
    fresh_server.room_.recent_msgs_ = [] ∧
    ((chat_room.join (((List.range' 1 150).map numbered_msg).foldl chat_room.deliver
        fresh_server) 7).sessions 7).write_msgs_ = (List.range' 51 100).map numbered_msg ∧
    ((chat_room.join (((List.range' 1 3).map numbered_msg).foldl chat_room.deliver
        fresh_server) 7).sessions 7).write_msgs_
      = [numbered_msg 1, numbered_msg 2, numbered_msg 3] := by
  have h150 := (history_replay_on_join fresh_server ((List.range' 1 150).map numbered_msg) 7
    rfl).2.2.1
  have h3 := (history_replay_on_join fresh_server ((List.range' 1 3).map numbered_msg) 7
    rfl).2.2.1
  rw [foldl_deliver_sessions_of_empty _ _ rfl] at h150 h3
  refine ⟨rfl, ?_, ?_⟩
  · rw [h150, List.length_map, List.length_range', ← List.map_drop]
    have : (List.range' 1 150).drop (150 - 100) = List.range' 51 100 := by decide
    rw [this]
    rfl
  · rw [h3]
    rfl

theorem fold_deliver_participants_sessions (msg : chat_message) (l : List Nat)
    (hnd : l.Nodup) (w : server_state) (p : Nat) :
    (l.foldl (fun acc q => participant_deliver acc q msg) w).sessions p =
      if p ∈ l then (w.sessions p).deliver msg else w.sessions p := by
  induction l generalizing w with
  | nil => simp
  | cons q qs ih =>
    rw [List.nodup_cons] at hnd
    rw [List.foldl_cons, ih hnd.2]
    by_cases hpq : p = q
    · subst hpq
      simp [hnd.1, participant_deliver]
    · have hne : ¬ (p = q ∨ p ∈ qs) ↔ p ∉ qs := by tauto
      simp only [participant_deliver, List.mem_cons, Function.update_noteq hpq]
      by_cases hm : p ∈ qs
      · simp [hm]
      · simp [hm, hpq]

theorem deliver_sessions (w : server_state) (hwf : set_wf w.room_.participants_)
    (msg : chat_message) (p : Nat) :
    (chat_room.deliver w msg).sessions p =
      if p ∈ w.room_.participants_ then (w.sessions p).deliver msg else w.sessions p := by
  unfold chat_room.deliver
  exact fold_deliver_participants_sessions msg _ (set_wf_nodup _ hwf) _ p

/-- C9. Fan-out reaches exactly the current members: `room.deliver(A)` invokes
`deliver(A)` exactly once on every participant that is a member at the call,
which appends `A` to the end of its send queue, and leaves every other session
as it is; the membership is not changed.  Consequently, when the room
delivers `A` and then `B` (two consecutive calls), every member's send queue
ends with `A`, `B` in this order. -/
theorem room_deliver_fan_out (w : server_state) (A B : chat_message) (p : Nat)
    (hwf : set_wf w.room_.participants_) :
    (p ∈ w.room_.participants_ →
      (chat_room.deliver w A).sessions p = (w.sessions p).deliver A ∧
      ((chat_room.deliver w A).sessions p).write_msgs_ = (w.sessions p).write_msgs_ ++ [A]) ∧
    (p ∉ w.room_.participants_ → (chat_room.deliver w A).sessions p = w.sessions p) ∧
    (chat_room.deliver w A).room_.participants_ = w.room_.participants_ ∧
    (p ∈ w.room_.participants_ →
      ((chat_room.deliver (chat_room.deliver w A) B).sessions p).write_msgs_
        = (w.sessions p).write_msgs_ ++ [A, B]) := by
  have hA := deliver_sessions w hwf A p
  have hpA : (chat_room.deliver w A).room_.participants_ = w.room_.participants_ := by
    rw [deliver_room]
  have hB := deliver_sessions (chat_room.deliver w A) (by rw [hpA]; exact hwf) B p
  rw [hpA] at hB
  refine ⟨fun hm => ?_, fun hm => ?_, hpA, fun hm => ?_⟩
  · rw [hA, if_pos hm]
    exact ⟨rfl, deliver_write_msgs _ _⟩
  · rw [hA, if_neg hm]
  · rw [hB, if_pos hm, deliver_write_msgs, hA, if_pos hm, deliver_write_msgs]
    simp

/-- C9, witness: a room with members 1 and 2; session 3 is not a member. -/
theorem room_deliver_fan_out_witness :
    set_wf [1, 2] ∧
    ((chat_room.deliver (chat_room.deliver ⟨⟨[1, 2], []⟩, fresh_server.sessions⟩
        (numbered_msg 65)) (numbered_msg 66)).sessions 2).write_msgs_
      = [numbered_msg 65, numbered_msg 66] ∧
    (chat_room.deliver ⟨⟨[1, 2], []⟩, fresh_server.sessions⟩ (numbered_msg 65)).sessions 3
      = fresh_server.sessions 3 :=
  ⟨by decide,
   (room_deliver_fan_out ⟨⟨[1, 2], []⟩, fresh_server.sessions⟩ (numbered_msg 65)
      (numbered_msg 66) 2 (by decide)).2.2.2 (by decide),
   (room_deliver_fan_out ⟨⟨[1, 2], []⟩, fresh_server.sessions⟩ (numbered_msg 65)
      (numbered_msg 66) 3 (by decide)).2.1 (by decide)⟩

/-- C10. `leave` is idempotent: for every room state (with a well-formed
participant set) and participant `s`, `leave(s)` applied twice yields the same
room state as `leave(s)` applied once; on a room where `s` is not a member it
leaves the room state unchanged; the history is never touched. -/
theorem leave_idempotent (r : chat_room) (s : Nat) (hwf : set_wf r.participants_) :
    (r.leave s).leave s = r.leave s ∧
    (s ∉ r.participants_ → r.leave s = r) ∧
    (r.leave s).recent_msgs_ = r.recent_msgs_ := by
  refine ⟨?_, fun hm => ?_, rfl⟩
  · simp only [chat_room.leave]
    rw [set_erase_of_not_mem s _ (set_erase_not_mem s _ hwf)]
  · simp only [chat_room.leave]
    rw [set_erase_of_not_mem s _ hm]

/-- C10, witness: leaving twice from the room with members 1, 2, 3. -/
theorem leave_idempotent_witness :
    set_wf [1, 2, 3] ∧
    ((chat_room.mk [1, 2, 3] [numbered_msg 65]).leave 2).leave 2
      = (chat_room.mk [1, 2, 3] [numbered_msg 65]).leave 2 ∧
    ((chat_room.mk [1, 2, 3] [numbered_msg 65]).leave 2).participants_ = [1, 3] :=
  ⟨by decide,
   (leave_idempotent (chat_room.mk [1, 2, 3] [numbered_msg 65]) 2 (by decide)).1,
   by decide⟩

/-! ## The write pipeline -/

theorem write_buffers_append (a b : List async_op) :
    write_buffers (a ++ b) = write_buffers a ++ write_buffers b := by
  induction a with
  | nil => rfl
  | cons op ops ih =>
    cases op <;> simp [write_buffers, ih]

theorem deliver_pending (s : chat_session) (msg : chat_message) :
    (s.deliver msg).pending =
      s.pending ++ (if s.write_msgs_ = [] then [async_op.write msg.wire] else []) := by
  cases hq : s.write_msgs_ with
  | nil => simp [chat_session.deliver, chat_session.do_write, hq]
  | cons m ms => simp [chat_session.deliver, hq]

theorem complete_write_some (ops : List async_op) (b : List Nat) (bs : List (List Nat))
    (h : write_buffers ops = b :: bs) :
    ∃ r, complete_write ops = some r ∧ write_buffers r = bs ∧ r.length + 1 = ops.length := by
  induction ops with
  | nil => simp [write_buffers] at h
  | cons op ops ih =>
    cases op with
    | write c =>
      simp only [write_buffers, List.cons.injEq] at h
      exact ⟨ops, rfl, h.2, rfl⟩
    | read_header =>
      obtain ⟨r, hr, hb, hl⟩ := ih h
      exact ⟨async_op.read_header :: r, by simp [complete_write, hr], by simpa [write_buffers], by simp [hl]⟩
    | read_body n =>
      obtain ⟨r, hr, hb, hl⟩ := ih h
      exact ⟨async_op.read_body n :: r, by simp [complete_write, hr], by simpa [write_buffers], by simp [hl]⟩

theorem complete_write_none (ops : List async_op) (h : write_buffers ops = []) :
    complete_write ops = none := by
  induction ops with
  | nil => rfl
  | cons op ops ih =>
    cases op with
    | write c => simp [write_buffers] at h
    | read_header => simp [complete_write, ih h]
    | read_body n => simp [complete_write, ih h]

theorem deliver_step (s : chat_session) (msg : chat_message)
    (hJ : s.writes_in_flight = (s.write_msgs_.take 1).map chat_message.wire) :
    (s.deliver msg).writes_in_flight
        = ((s.deliver msg).write_msgs_.take 1).map chat_message.wire ∧
    write_buffers ((queue_event.deliver msg).started s (s.deliver msg))
        = if s.write_msgs_ = [] then [msg.wire] else [] := by
  unfold chat_session.writes_in_flight at hJ ⊢
  simp only [queue_event.started]
  rw [deliver_pending, deliver_write_msgs, write_buffers_append, hJ, List.drop_left]
  cases hq : s.write_msgs_ with
  | nil => simp [write_buffers]
  | cons m ms => simp [write_buffers]

theorem write_done_step (s : chat_session) (m : chat_message) (rest : List chat_message)
    (hJ : s.writes_in_flight = (s.write_msgs_.take 1).map chat_message.wire)
    (hq : s.write_msgs_ = m :: rest) :
    ∃ s1, queue_event.write_done.run s = some s1 ∧ s1.write_msgs_ = rest ∧
      s1.read_msg_ = s.read_msg_ ∧
      s1.writes_in_flight = (rest.take 1).map chat_message.wire ∧
      write_buffers (queue_event.write_done.started s s1)
        = (rest.take 1).map chat_message.wire := by
  unfold chat_session.writes_in_flight at hJ ⊢
  rw [hq] at hJ
  obtain ⟨r, hr, hb, hl⟩ := complete_write_some s.pending m.wire [] (by simpa using hJ)
  have hlen : s.pending.length - 1 = r.length := by omega
  cases rest with
  | nil =>
    refine ⟨⟨s.read_msg_, [], r⟩, ?_, rfl, rfl, ?_, ?_⟩
    · simp [queue_event.run, hr, chat_session.on_write_ok, hq]
    · simpa using hb
    · simp [queue_event.started, hlen, write_buffers]
  | cons m2 ms =>
    refine ⟨⟨s.read_msg_, m2 :: ms, r ++ [async_op.write m2.wire]⟩, ?_, rfl, rfl, ?_, ?_⟩
    · simp [queue_event.run, hr, chat_session.on_write_ok, hq, chat_session.do_write]
    · simp [write_buffers_append, hb, write_buffers]
    · simp [queue_event.started, hlen, write_buffers]

theorem write_done_enabled (s : chat_session) (ops : List async_op)
    (hJ : s.writes_in_flight = (s.write_msgs_.take 1).map chat_message.wire)
    (hc : complete_write s.pending = some ops) : s.write_msgs_ ≠ [] := by
  intro hq
  unfold chat_session.writes_in_flight at hJ
  rw [hq] at hJ
  rw [complete_write_none s.pending (by simpa using hJ)] at hc
  exact Option.noConfusion hc

theorem queue_run_invariant (es : List queue_event) (s0 s : chat_session)
    (hJ : s0.writes_in_flight = (s0.write_msgs_.take 1).map chat_message.wire)
    (hrun : queue_run s0 es = some s) :
    s.writes_in_flight = (s.write_msgs_.take 1).map chat_message.wire := by
  induction es generalizing s0 with
  | nil =>
    simp only [queue_run, Option.some.injEq] at hrun
    rw [← hrun]; exact hJ
  | cons e es ih =>
    simp only [queue_run] at hrun
    cases e with
    | deliver msg =>
      simp only [queue_event.run] at hrun
      exact ih _ (deliver_step s0 msg hJ).1 hrun
    | write_done =>
      cases hq : s0.write_msgs_ with
      | nil =>
        have hn : complete_write s0.pending = none := by
          apply complete_write_none
          unfold chat_session.writes_in_flight at hJ
          rw [hJ, hq]; rfl
        simp [queue_event.run, hn] at hrun
      | cons m rest =>
        obtain ⟨s1, h1, h2, _, h4, _⟩ := write_done_step s0 m rest hJ hq
        rw [h1] at hrun
        exact ih s1 (by rw [h2]; exact h4) hrun

/-- C14. Writes are strictly serialized: in every session state reached from a
session with an empty send queue and no write in flight (a freshly
constructed one in particular) by `deliver` calls and successful write
completions, at most one write is in flight, one is in flight exactly when the
send queue is non-empty, and its buffer is that of the queue's front; hence
whenever a write completion can occur, its handler finds a non-empty queue for
`front()` and `pop_front()`; and `deliver` starts a write exactly when the
queue was empty before the append. -/
theorem writes_serialized (s0 s : chat_session) (es : List queue_event)
    (h0 : s0.write_msgs_ = []) (h1 : s0.writes_in_flight = [])
    (hrun : queue_run s0 es = some s) :
    s.writes_in_flight.length ≤ 1 ∧
    (s.writes_in_flight ≠ [] ↔ s.write_msgs_ ≠ []) ∧
    s.writes_in_flight = (s.write_msgs_.take 1).map chat_message.wire ∧
    (∀ ops, complete_write s.pending = some ops →
      s.write_msgs_ ≠ [] ∧ (({ s with pending := ops } : chat_session).on_write_ok).isSome) ∧
    (∀ msg, (s.deliver msg).pending =
      s.pending ++ (if s.write_msgs_ = [] then [async_op.write msg.wire] else [])) := by
  have hJ0 : s0.writes_in_flight = (s0.write_msgs_.take 1).map chat_message.wire := by
    rw [h1, h0]; rfl
  have hJ := queue_run_invariant es s0 s hJ0 hrun
  refine ⟨?_, ?_, hJ, fun ops hc => ?_, fun msg => deliver_pending s msg⟩
  · rw [hJ, List.length_map]
    exact List.length_take_le 1 _
  · rw [hJ]
    cases s.write_msgs_ <;> simp
  · have hne := write_done_enabled s ops hJ hc
    refine ⟨hne, ?_⟩
    cases hq : s.write_msgs_ with
    | nil => exact absurd hq hne
    | cons m rest => simp [chat_session.on_write_ok, hq]

/-- C14, witness: two `deliver` calls and one write completion on a fresh
session leave the second message at the front with its write in flight. -/
theorem writes_serialized_witness :
    queue_run (chat_session.new (List.replicate 516 0))
        [queue_event.deliver (numbered_msg 65), queue_event.deliver (numbered_msg 66),
          queue_event.write_done]
      = some ⟨chat_message.new (List.replicate 516 0), [numbered_msg 66],
          [async_op.write (numbered_msg 66).wire]⟩ ∧
    (⟨chat_message.new (List.replicate 516 0), [numbered_msg 66],
        [async_op.write (numbered_msg 66).wire]⟩ : chat_session).writes_in_flight
      = [bytes_of "   1B"] :=
  ⟨rfl,
   ((writes_serialized (chat_session.new (List.replicate 516 0))
      ⟨chat_message.new (List.replicate 516 0), [numbered_msg 66],
        [async_op.write (numbered_msg 66).wire]⟩
      [queue_event.deliver (numbered_msg 65), queue_event.deliver (numbered_msg 66),
        queue_event.write_done] rfl rfl rfl).2.2.1).trans (by decide)⟩

theorem trace_run_invariant (es : List queue_event) (t0 t : write_trace)
    (hJ : t0.session.writes_in_flight = (t0.session.write_msgs_.take 1).map chat_message.wire)
    (hI : ∃ done, t0.delivered = done ++ t0.session.write_msgs_ ∧
      t0.written = (done ++ t0.session.write_msgs_.take 1).map chat_message.wire)
    (hrun : write_trace.run t0 es = some t) :
    t.delivered = t0.delivered ++ delivered_of es ∧
    ∃ done, t.delivered = done ++ t.session.write_msgs_ ∧
      t.written = (done ++ t.session.write_msgs_.take 1).map chat_message.wire := by
  induction es generalizing t0 with
  | nil =>
    simp only [write_trace.run, Option.some.injEq] at hrun
    subst hrun
    exact ⟨by simp [delivered_of], hI⟩
  | cons e es ih =>
    obtain ⟨done, hd, hw⟩ := hI
    simp only [write_trace.run] at hrun
    cases e with
    | deliver msg =>
      simp only [write_trace.step, queue_event.run] at hrun
      obtain ⟨hJ1, hst⟩ := deliver_step t0.session msg hJ
      have := ih _ hJ1 ⟨done, ?_, ?_⟩ hrun
      · refine ⟨?_, this.2⟩
        rw [this.1]; simp [delivered_of]
      · simp only [deliver_write_msgs, hd, List.append_assoc]
      · simp only [hst, hw, deliver_write_msgs]
        cases hq : t0.session.write_msgs_ with
        | nil => simp
        | cons m ms => simp
    | write_done =>
      cases hq : t0.session.write_msgs_ with
      | nil =>
        have hn : complete_write t0.session.pending = none := by
          apply complete_write_none
          unfold chat_session.writes_in_flight at hJ
          rw [hJ, hq]; rfl
        simp [write_trace.step, queue_event.run, hn] at hrun
      | cons m rest =>
        obtain ⟨s1, h1, h2, _, h4, h5⟩ := write_done_step t0.session m rest hJ hq
        simp only [write_trace.step, h1] at hrun
        have := ih _ (by simp only [h2]; exact h4) ⟨done ++ [m], ?_, ?_⟩ hrun
        · refine ⟨?_, this.2⟩
          rw [this.1]; simp [delivered_of]
        · simp only [h2, hd, hq, List.append_nil, List.append_assoc, List.singleton_append]
        · simp only [h5, hw, hq, h2]
          simp

/-- C11. The send queue of a session is strictly FIFO: for every interleaving of
`deliver(msg)` calls and successful write completions on a session that starts
with an empty queue and no write in flight, the sequence of buffers handed to
`async_write` is the sequence of the wire images of a prefix of the messages
passed to `deliver`, in the same order: nothing is written twice, skipped or
reordered.  More precisely, the messages delivered so far are those already
written and completed followed by the current queue, and the writes started
so far are the completed ones followed by the front of the queue. -/
theorem send_queue_fifo (s0 : chat_session) (es : List queue_event) (t : write_trace)
    (h0 : s0.write_msgs_ = []) (h1 : s0.writes_in_flight = [])
    (hrun : write_trace.run ⟨s0, [], []⟩ es = some t) :
    t.delivered = delivered_of es ∧
    t.written = ((delivered_of es).take t.written.length).map chat_message.wire ∧
    t.written.length ≤ (delivered_of es).length ∧
    ∃ done, delivered_of es = done ++ t.session.write_msgs_ ∧
      t.written = (done ++ t.session.write_msgs_.take 1).map chat_message.wire := by
  have hJ0 : s0.writes_in_flight = (s0.write_msgs_.take 1).map chat_message.wire := by
    rw [h1, h0]; rfl
  obtain ⟨hdel, done, hd, hw⟩ := trace_run_invariant es ⟨s0, [], []⟩ t hJ0
    ⟨[], by simp [h0], by simp [h0]⟩ hrun
  simp only [List.nil_append] at hdel
  rw [hdel] at hd
  have hlen : t.written.length = done.length + (t.session.write_msgs_.take 1).length := by
    rw [hw]; simp
  have hle : (t.session.write_msgs_.take 1).length ≤ t.session.write_msgs_.length := by
    rw [List.length_take]; exact Nat.min_le_right _ _
  refine ⟨hdel, ?_, ?_, done, hd, hw⟩
  · rw [hlen, hd, List.take_append, hw]
    have hq : List.take (List.take 1 t.session.write_msgs_).length t.session.write_msgs_
        = List.take 1 t.session.write_msgs_ := by
      cases t.session.write_msgs_ <;> simp
    rw [hq]
  · rw [hlen, hd, List.length_append]
    omega

/-- C11, witness: `deliver m1`, `deliver m2`, a completion, `deliver m3`, a
completion: the writes started are those of `m1`, `m2`, `m3`, in this order. -/
theorem send_queue_fifo_witness :
    write_trace.run ⟨chat_session.new (List.replicate 516 0), [], []⟩
        [queue_event.deliver (numbered_msg 65), queue_event.deliver (numbered_msg 66),
          queue_event.write_done, queue_event.deliver (numbered_msg 67),
          queue_event.write_done]
      = some ⟨⟨chat_message.new (List.replicate 516 0), [numbered_msg 67],
            [async_op.write (numbered_msg 67).wire]⟩,
          [numbered_msg 65, numbered_msg 66, numbered_msg 67],
          [(numbered_msg 65).wire, (numbered_msg 66).wire, (numbered_msg 67).wire]⟩ ∧
    [(numbered_msg 65).wire, (numbered_msg 66).wire, (numbered_msg 67).wire]
      = [bytes_of "   1A", bytes_of "   1B", bytes_of "   1C"] ∧
    (3 : Nat) ≤ (delivered_of
        [queue_event.deliver (numbered_msg 65), queue_event.deliver (numbered_msg 66),
          queue_event.write_done, queue_event.deliver (numbered_msg 67),
          queue_event.write_done]).length :=
  ⟨rfl, by decide,
   (send_queue_fifo (chat_session.new (List.replicate 516 0))
      [queue_event.deliver (numbered_msg 65), queue_event.deliver (numbered_msg 66),
        queue_event.write_done, queue_event.deliver (numbered_msg 67),
        queue_event.write_done]
      ⟨⟨chat_message.new (List.replicate 516 0), [numbered_msg 67],
          [async_op.write (numbered_msg 67).wire]⟩,
        [numbered_msg 65, numbered_msg 66, numbered_msg 67],
        [(numbered_msg 65).wire, (numbered_msg 66).wire, (numbered_msg 67).wire]⟩
      rfl rfl rfl).2.2.1⟩

/-! ## Sessions after a failure -/

theorem start_room (w : server_state) (p : Nat) :
    (chat_session.start w p).room_ = ⟨set_insert p w.room_.participants_, w.room_.recent_msgs_⟩ := by
  unfold chat_session.start
  exact join_room w p

theorem on_read_header_room (w : server_state) (p : Nat) (ec : Bool) (bytes : List Nat) :
    (chat_session.on_read_header w p ec bytes).room_ =
      if ec || !((store_header (w.sessions p).read_msg_ bytes).decode_header).1
      then w.room_.leave p else w.room_ := by
  unfold chat_session.on_read_header
  cases ec
  · simp only [Bool.not_false, if_true, Bool.false_or]
    rcases hd : (store_header (w.sessions p).read_msg_ bytes).decode_header with ⟨_ | _, m⟩ <;>
      simp
  · simp

theorem on_read_header_pending (w : server_state) (p : Nat) (ec : Bool) (bytes : List Nat) :
    ((chat_session.on_read_header w p ec bytes).sessions p).pending =
      (w.sessions p).pending.erase async_op.read_header ++
        (if ec || !((store_header (w.sessions p).read_msg_ bytes).decode_header).1 then []
         else [async_op.read_body
           ((store_header (w.sessions p).read_msg_ bytes).decode_header).2.body_length]) := by
  unfold chat_session.on_read_header
  cases ec
  · simp only [Bool.not_false, if_true, Bool.false_or]
    rcases hd : (store_header (w.sessions p).read_msg_ bytes).decode_header with ⟨_ | _, m⟩ <;>
      simp [chat_session.do_read_body]
  · simp

theorem on_read_body_room (w : server_state) (p : Nat) (ec : Bool) (bytes : List Nat) :
    (chat_session.on_read_body w p ec bytes).room_ =
      if ec then w.room_.leave p
      else ⟨w.room_.participants_, pop_front_loop (w.room_.recent_msgs_ ++
        [store_body (w.sessions p).read_msg_ bytes])⟩ := by
  unfold chat_session.on_read_body
  cases ec
  · simp only [Bool.not_false, if_true, Bool.false_eq_true, if_false]
    rw [deliver_room]
  · simp

theorem complete_write_sublist (ops r : List async_op) (h : complete_write ops = some r) :
    r.Sublist ops ∧ r.length + 1 = ops.length := by
  induction ops generalizing r with
  | nil => simp [complete_write] at h
  | cons op ops ih =>
    cases op with
    | write c =>
      simp only [complete_write, Option.some.injEq] at h
      subst h
      exact ⟨List.sublist_cons_self _ _, rfl⟩
    | read_header =>
      simp only [complete_write, Option.map_eq_some'] at h
      obtain ⟨r2, hr2, rfl⟩ := h
      exact ⟨(ih r2 hr2).1.cons₂ _, by simp [(ih r2 hr2).2]⟩
    | read_body n =>
      simp only [complete_write, Option.map_eq_some'] at h
      obtain ⟨r2, hr2, rfl⟩ := h
      exact ⟨(ih r2 hr2).1.cons₂ _, by simp [(ih r2 hr2).2]⟩

theorem on_write_error (w w1 : server_state) (p : Nat)
    (h : chat_session.on_write w p true = some w1) :
    w1.room_ = w.room_.leave p ∧
    ∃ ops, complete_write (w.sessions p).pending = some ops ∧ (w1.sessions p).pending = ops := by
  unfold chat_session.on_write at h
  cases hc : complete_write (w.sessions p).pending with
  | none => simp [hc] at h
  | some ops =>
    simp only [hc, Bool.not_true, Bool.false_eq_true, if_false, Option.some.injEq] at h
    subst h
    exact ⟨rfl, ops, rfl, by simp⟩

theorem on_write_participants (w w1 : server_state) (p : Nat) (ec : Bool)
    (h : chat_session.on_write w p ec = some w1) :
    w1.room_.participants_.Sublist w.room_.participants_ := by
  unfold chat_session.on_write at h
  cases hc : complete_write (w.sessions p).pending with
  | none => simp [hc] at h
  | some ops =>
    cases ec
    · simp only [hc, Bool.not_false, if_true] at h
      split at h
      · exact Option.noConfusion h
      · simp only [Option.some.injEq] at h
        subst h
        exact List.Sublist.refl _
    · simp only [hc, Bool.not_true, Bool.false_eq_true, if_false, Option.some.injEq] at h
      subst h
      exact set_erase_sublist _ _

/-- An event other than `start self` cannot make `self` a participant. -/
theorem run_keeps_out (w w1 : server_state) (self : Nat) (e : server_event)
    (he : e ≠ server_event.start self) (hout : self ∉ w.room_.participants_)
    (h : e.run w = some w1) : self ∉ w1.room_.participants_ := by
  cases e with
  | start p =>
    simp only [server_event.run, Option.some.injEq] at h
    subst h
    rw [start_room]
    intro hm
    rcases (mem_set_insert p self _).mp hm with h1 | h1
    · exact he (by rw [h1])
    · exact hout h1
  | deliver p msg =>
    simp only [server_event.run, Option.some.injEq] at h
    subst h
    exact hout
  | read_header_done p ec bytes =>
    simp only [server_event.run] at h
    split at h
    · simp only [Option.some.injEq] at h
      subst h
      rw [on_read_header_room]
      split
      · exact fun hm => hout ((set_erase_sublist _ _).subset hm)
      · exact hout
    · exact Option.noConfusion h
  | read_body_done p ec bytes =>
    simp only [server_event.run] at h
    split at h
    · simp only [Option.some.injEq] at h
      subst h
      rw [on_read_body_room]
      split
      · exact fun hm => hout ((set_erase_sublist _ _).subset hm)
      · exact hout
    · exact Option.noConfusion h
  | write_done p ec =>
    simp only [server_event.run] at h
    exact fun hm => hout ((on_write_participants w w1 p ec h).subset hm)

theorem server_run_keeps_out (es : List server_event) (w w1 : server_state) (self : Nat)
    (hes : ∀ e ∈ es, e ≠ server_event.start self) (hout : self ∉ w.room_.participants_)
    (h : server_run w es = some w1) : self ∉ w1.room_.participants_ := by
  induction es generalizing w with
  | nil =>
    simp only [server_run, Option.some.injEq] at h
    subst h
    exact hout
  | cons e es ih =>
    simp only [server_run] at h
    cases hr : e.run w with
    | none => simp [hr] at h
    | some w2 =>
      rw [hr] at h
      exact ih w2 (fun e2 h2 => hes e2 (List.mem_cons_of_mem _ h2))
        (run_keeps_out w w2 self e (hes e (List.mem_cons_self _ _)) hout hr) h

theorem on_read_body_error_pending (w : server_state) (p : Nat) (bytes : List Nat) :
    ((chat_session.on_read_body w p true bytes).sessions p).pending =
      (w.sessions p).pending.erase (async_op.read_body (w.sessions p).read_msg_.body_length) := by
  simp [chat_session.on_read_body]

/-- C12, counterexample.  A session (address 1) is started and gets two messages
delivered; its header read then completes with the header `" 600"`, which
fails to decode, and the session leaves the room; when the write in flight
completes afterwards, the handler starts the write of the second message.
Likewise, after a failed write the header read and the body read that were or
become outstanding complete, the last one delivers the message read into the
room (the history grows) and starts a further header read. -/
theorem failed_session_goes_on :
    (server_run fresh_server
        [server_event.start 1, server_event.deliver 1 (numbered_msg 65),
          server_event.deliver 1 (numbered_msg 66),
          server_event.read_header_done 1 false (bytes_of " 600")]).map
        (fun w => (w.room_.participants_, (w.sessions 1).pending))
      = some ([], [async_op.write (numbered_msg 65).wire]) ∧
    (server_run fresh_server
        [server_event.start 1, server_event.deliver 1 (numbered_msg 65),
          server_event.deliver 1 (numbered_msg 66),
          server_event.read_header_done 1 false (bytes_of " 600"),
          server_event.write_done 1 false]).map
        (fun w => (w.room_.participants_, (w.sessions 1).pending))
      = some ([], [async_op.write (numbered_msg 66).wire]) ∧
    (server_run fresh_server
        [server_event.start 1, server_event.deliver 1 (numbered_msg 65),
          server_event.write_done 1 true]).map
        (fun w => (w.room_.participants_, w.room_.recent_msgs_.length, (w.sessions 1).pending))
      = some ([], 0, [async_op.read_header]) ∧
    (server_run fresh_server
        [server_event.start 1, server_event.deliver 1 (numbered_msg 65),
          server_event.write_done 1 true,
          server_event.read_header_done 1 false (bytes_of "   1"),
          server_event.read_body_done 1 false [66]]).map
        (fun w => (w.room_.participants_, w.room_.recent_msgs_.length, (w.sessions 1).pending))
      = some ([], 1, [async_op.read_header]) := by
  decide

/-- C12, amended.  When a completion handler of the session at `self` observes an
I/O error or a header decode failure, it calls `room_.leave`: the session is
no longer a participant, and the handler starts no operation (the outstanding
operations are the former ones without the completed one).  After that, no
sequence of events other than a new `start` of this session makes it a
participant again. -/
theorem failed_session_leaves_room (w w1 w2 : server_state) (self : Nat) (e : server_event)
    (es : List server_event) (hwf : set_wf w.room_.participants_)
    (hf : observes_failure w self e = true) (h1 : e.run w = some w1)
    (hes : ∀ e2 ∈ es, e2 ≠ server_event.start self) (h2 : server_run w1 es = some w2) :
    w1.room_ = w.room_.leave self ∧
    self ∉ w1.room_.participants_ ∧
    (w1.sessions self).pending.Sublist (w.sessions self).pending ∧
    (w1.sessions self).pending.length + 1 = (w.sessions self).pending.length ∧
    self ∉ w2.room_.participants_ := by
  have key : w1.room_ = w.room_.leave self ∧
      (w1.sessions self).pending.Sublist (w.sessions self).pending ∧
      (w1.sessions self).pending.length + 1 = (w.sessions self).pending.length := by
    cases e with
    | start p => simp [observes_failure] at hf
    | deliver p msg => simp [observes_failure] at hf
    | read_header_done p ec bytes =>
      simp only [observes_failure, Bool.and_eq_true, beq_iff_eq] at hf
      obtain ⟨rfl, hc⟩ := hf
      simp only [server_event.run] at h1
      split at h1
      · rename_i hmem
        simp only [Option.some.injEq] at h1
        subst h1
        rw [on_read_header_room, on_read_header_pending, if_pos hc, if_pos hc, List.append_nil]
        refine ⟨rfl, List.erase_sublist _ _, ?_⟩
        rw [List.length_erase_of_mem hmem]
        have := List.length_pos_of_mem hmem
        omega
      · exact Option.noConfusion h1
    | read_body_done p ec bytes =>
      simp only [observes_failure, Bool.and_eq_true, beq_iff_eq] at hf
      obtain ⟨rfl, rfl⟩ := hf
      simp only [server_event.run] at h1
      split at h1
      · rename_i hmem
        simp only [Option.some.injEq] at h1
        subst h1
        rw [on_read_body_room, on_read_body_error_pending, if_pos rfl]
        refine ⟨rfl, List.erase_sublist _ _, ?_⟩
        rw [List.length_erase_of_mem hmem]
        have := List.length_pos_of_mem hmem
        omega
      · exact Option.noConfusion h1
    | write_done p ec =>
      simp only [observes_failure, Bool.and_eq_true, beq_iff_eq] at hf
      obtain ⟨rfl, rfl⟩ := hf
      simp only [server_event.run] at h1
      obtain ⟨hr, ops, hc, hp⟩ := on_write_error w w1 p h1
      have := complete_write_sublist _ _ hc
      rw [hp]
      exact ⟨hr, this.1, this.2⟩
  have hout : self ∉ w1.room_.participants_ := by
    rw [key.1]
    exact set_erase_not_mem self _ hwf
  exact ⟨key.1, hout, key.2.1, key.2.2, server_run_keeps_out es w1 w2 self hes hout h2⟩

/-- C12 amended, witness: the session at address 1 is started, its header read
completes with `" 600"`; later a message is delivered to it and another
session is started. -/
theorem failed_session_leaves_room_witness :
    set_wf (chat_session.start fresh_server 1).room_.participants_ ∧
    observes_failure (chat_session.start fresh_server 1) 1
      (server_event.read_header_done 1 false (bytes_of " 600")) = true ∧
    1 ∉ (chat_session.on_read_header (chat_session.start fresh_server 1) 1 false
      (bytes_of " 600")).room_.participants_ ∧
    1 ∉ (chat_session.start (participant_deliver
      (chat_session.on_read_header (chat_session.start fresh_server 1) 1 false
        (bytes_of " 600")) 1 (numbered_msg 65)) 2).room_.participants_ :=
  ⟨by decide, by decide,
   (failed_session_leaves_room (chat_session.start fresh_server 1)
      (chat_session.on_read_header (chat_session.start fresh_server 1) 1 false
        (bytes_of " 600"))
      (chat_session.start (participant_deliver
        (chat_session.on_read_header (chat_session.start fresh_server 1) 1 false
          (bytes_of " 600")) 1 (numbered_msg 65)) 2)
      1 (server_event.read_header_done 1 false (bytes_of " 600"))
      [server_event.deliver 1 (numbered_msg 65), server_event.start 2]
      (by decide) (by decide) rfl (by decide) rfl).2.1,
   (failed_session_leaves_room (chat_session.start fresh_server 1)
      (chat_session.on_read_header (chat_session.start fresh_server 1) 1 false
        (bytes_of " 600"))
      (chat_session.start (participant_deliver
        (chat_session.on_read_header (chat_session.start fresh_server 1) 1 false
          (bytes_of " 600")) 1 (numbered_msg 65)) 2)
      1 (server_event.read_header_done 1 false (bytes_of " 600"))
      [server_event.deliver 1 (numbered_msg 65), server_event.start 2]
      (by decide) (by decide) rfl (by decide) rfl).2.2.2.2⟩

/-! ## The producer loop -/

theorem getline_loop_line (stored line rest : List Nat) (hnl : ∀ c ∈ line, c ≠ 10)
    (hlen : stored.length + line.length ≤ 512) :
    getline_loop 513 stored (line ++ 10 :: rest) = (stored ++ line, rest, false) := by
  induction line generalizing stored with
  | nil => simp [getline_loop]
  | cons c cs ih =>
    have hc : c ≠ 10 := hnl c (List.mem_cons_self _ _)
    simp only [List.length_cons] at hlen
    have hlt : ¬ 513 ≤ stored.length + 1 := by omega
    show getline_loop 513 stored (c :: (cs ++ 10 :: rest)) = _
    rw [getline_loop, if_neg hc, if_neg hlt]
    rw [ih (stored ++ [c]) (fun x hx => hnl x (List.mem_cons_of_mem _ hx))
      (by simp only [List.length_append, List.length_singleton]; omega)]
    simp

theorem getline_loop_oversize (stored line tail : List Nat) (hnl : ∀ c ∈ line, c ≠ 10)
    (hs : stored.length ≤ 512) (hlen : 512 < stored.length + line.length) :
    (getline_loop 513 stored (line ++ tail)).2.2 = true := by
  induction line generalizing stored with
  | nil => simp only [List.length_nil] at hlen; omega
  | cons c cs ih =>
    have hc : c ≠ 10 := hnl c (List.mem_cons_self _ _)
    simp only [List.length_cons] at hlen
    simp only [List.cons_append, getline_loop, if_neg hc]
    split_ifs with hlt
    · rfl
    · exact ih (stored ++ [c]) (fun x hx => hnl x (List.mem_cons_of_mem _ hx))
        (by simp only [List.length_append, List.length_singleton]; omega)
        (by simp only [List.length_append, List.length_singleton]; omega)

theorem getline_loop_consumes (count : Nat) (stored input line rest : List Nat)
    (h : getline_loop count stored input = (line, rest, false)) :
    rest.length + (if stored = [] then 1 else 0) ≤ input.length := by
  induction input generalizing stored with
  | nil =>
    simp only [getline_loop, Prod.mk.injEq] at h
    obtain ⟨_, hr, hf⟩ := h
    subst hr
    cases stored with
    | nil => simp at hf
    | cons a as => simp
  | cons c cs ih =>
    simp only [getline_loop] at h
    split_ifs at h with h1 h2
    · simp only [Prod.mk.injEq] at h
      obtain ⟨_, hr, _⟩ := h
      subst hr
      simp only [List.length_cons]
      split <;> omega
    · simp at h
    · have := ih (stored ++ [c]) h
      simp only [List.append_eq_nil, List.cons_ne_self, and_false, if_false,
        Nat.add_zero] at this
      simp only [List.length_cons]
      split <;> omega

theorem producer_loop_fuel (g : List Nat) (fuel1 fuel2 : Nat) (input : List Nat)
    (h1 : input.length < fuel1) (h2 : input.length < fuel2) :
    producer_loop g fuel1 input = producer_loop g fuel2 input := by
  induction fuel1 generalizing fuel2 input with
  | zero => omega
  | succ n ih =>
    cases fuel2 with
    | zero => omega
    | succ m =>
      simp only [producer_loop]
      rcases hgl : getline_loop (chat_message.max_body_length + 1) [] input with
        ⟨stored, rest, _ | _⟩
      · have hc := getline_loop_consumes _ _ _ _ _ hgl
        simp only [if_true] at hc
        simp only
        rw [ih m rest (by omega) (by omega)]
      · rfl

/-- The producer loop unrolled once: the iteration bound is never reached. -/
theorem producer_unroll (g input : List Nat) :
    producer g input =
      match getline_loop (chat_message.max_body_length + 1) [] input with
      | (_, _, true) => []
      | (stored, rest, false) =>
        client_frame g (stored.takeWhile (fun c => c != 0)) :: producer g rest := by
  show producer_loop g (input.length + 1) input = _
  rw [producer_loop]
  rcases hgl : getline_loop (chat_message.max_body_length + 1) [] input with
    ⟨stored, rest, _ | _⟩
  · have hc := getline_loop_consumes _ _ _ _ _ hgl
    simp only [if_true] at hc
    simp only
    rw [producer, producer_loop_fuel g input.length (rest.length + 1) rest (by omega) (by omega)]
  · rfl

theorem producer_line (g line rest : List Nat) (hnl : ∀ c ∈ line, c ≠ 10)
    (hnz : ∀ c ∈ line, c ≠ 0) (hlen : line.length ≤ 512) :
    producer g (line ++ 10 :: rest) = client_frame g line :: producer g rest := by
  rw [producer_unroll]
  have h := getline_loop_line [] line rest hnl (by simpa using hlen)
  simp only [chat_message.max_body_length, List.nil_append] at h ⊢
  rw [h]
  simp only
  have ht : line.takeWhile (fun c => c != 0) = line := by
    rw [List.takeWhile_eq_self_iff]
    intro c hc
    simpa using hnz c hc
  rw [ht]

theorem producer_oversize (g line tail : List Nat) (hnl : ∀ c ∈ line, c ≠ 10)
    (hlen : 512 < line.length) : producer g (line ++ tail) = [] := by
  rw [producer_unroll]
  have h := getline_loop_oversize [] line tail hnl (by simp) (by simpa using hlen)
  simp only [chat_message.max_body_length] at h ⊢
  rcases hgl : getline_loop (512 + 1) [] (line ++ tail) with ⟨stored, rest, _ | _⟩
  · rw [hgl] at h
    simp at h
  · rfl

theorem client_frame_payload (g line : List Nat) (hg : g.length = 516)
    (hlen : line.length ≤ 512) :
    (client_frame g line).body_length = line.length ∧
    (client_frame g line).payload = line ∧
    (client_frame g line).data_.take 4 = sprintf_4d (line.length : Int) := by
  have hl := (sprintf_4d_facts line.length hlen).1
  rw [client_frame_eq g line hg hlen]
  refine ⟨rfl, ?_, ?_⟩
  · simp only [chat_message.payload, chat_message.body, chat_message.header_length,
      chat_message.body_length]
    rw [List.drop_left' hl]
    exact List.take_left' rfl
  · exact List.take_left' hl

/-- C13, counterexample: a line of 513 bytes.  `getline` stores 512 bytes and sets
`failbit`, the loop ends: no message is submitted for the line, and the line
`next` after it is never read (on its own it would be submitted). -/
theorem oversize_line_ends_loop :
    producer (List.replicate 516 0)
        (List.replicate 513 97 ++ 10 :: (bytes_of "next" ++ [10])) = [] ∧
    producer (List.replicate 516 0) (bytes_of "next" ++ [10])
      = [client_frame (List.replicate 516 0) (bytes_of "next")] := by
  refine ⟨producer_oversize _ _ _ ?_ ?_, ?_⟩
  · intro c hc
    rw [List.eq_of_mem_replicate hc]
    decide
  · rw [List.length_replicate]
    decide
  · rw [producer_line _ (bytes_of "next") [] (by decide) (by decide) (by decide)]
    rfl

/-- C13, amended.  A line (no `'\n'` and no NUL byte in it) of at most 512 bytes
that is followed by `'\n'` makes the producer loop submit exactly one message,
whose body is the line and whose header encodes its length, and the loop goes
on with the input after the `'\n'`.  A line longer than 512 bytes is not
truncated: the loop ends there, nothing is submitted for it or for anything
that follows. -/
theorem producer_lines (g line rest : List Nat) (hg : g.length = 516)
    (hnl : ∀ c ∈ line, c ≠ 10) (hnz : ∀ c ∈ line, c ≠ 0) :
    (line.length ≤ 512 →
      producer g (line ++ 10 :: rest) = client_frame g line :: producer g rest ∧
      (client_frame g line).body_length = line.length ∧
      (client_frame g line).payload = line ∧
      (client_frame g line).data_.take 4 = sprintf_4d (line.length : Int) ∧
      atoi ((client_frame g line).data_.take 4) = (line.length : Int)) ∧
    (512 < line.length → ∀ tail, producer g (line ++ tail) = []) := by
  refine ⟨fun hlen => ?_, fun hlen tail => producer_oversize g line tail hnl hlen⟩
  obtain ⟨h1, h2, h3⟩ := client_frame_payload g line hg hlen
  refine ⟨producer_line g line rest hnl hnz hlen, h1, h2, h3, ?_⟩
  rw [h3]
  exact (sprintf_4d_facts line.length hlen).2.2

/-- C13 amended, witness: the input `hello`, newline, and a line of 600 bytes. -/
theorem producer_lines_witness :
    producer (List.replicate 516 0) (bytes_of "hello" ++ 10 :: [])
      = client_frame (List.replicate 516 0) (bytes_of "hello")
          :: producer (List.replicate 516 0) [] ∧
    (client_frame (List.replicate 516 0) (bytes_of "hello")).payload = bytes_of "hello" ∧
    producer (List.replicate 516 0) (List.replicate 600 97 ++ [10, 98, 10]) = [] :=
  ⟨((producer_lines (List.replicate 516 0) (bytes_of "hello") []
      (List.length_replicate 516 0) (by decide) (by decide)).1 (by decide)).1,
   ((producer_lines (List.replicate 516 0) (bytes_of "hello") []
      (List.length_replicate 516 0) (by decide) (by decide)).1 (by decide)).2.2.1,
   (producer_lines (List.replicate 516 0) (List.replicate 600 97) []
      (List.length_replicate 516 0)
      (fun c hc => by rw [List.eq_of_mem_replicate hc]; decide)
      (fun c hc => by rw [List.eq_of_mem_replicate hc]; decide)).2
      (by rw [List.length_replicate]; decide) [10, 98, 10]⟩

/-! ## Lengths stay within the buffer -/

theorem wire_fits (m : chat_message) (h : m.length ≤ buffer_size) :
    (async_op.write m.wire).fits := by
  simp only [async_op.fits, chat_message.wire]
  exact le_trans (List.length_take_le _ _) h

theorem deliver_read_msg (s : chat_session) (msg : chat_message) :
    (s.deliver msg).read_msg_ = s.read_msg_ := by
  unfold chat_session.deliver
  simp only
  split
  · unfold chat_session.do_write
    split <;> rfl
  · rfl

theorem deliver_lengths_ok (s : chat_session) (msg : chat_message) (hs : s.lengths_ok)
    (hm : msg.length ≤ buffer_size) : (s.deliver msg).lengths_ok := by
  obtain ⟨h1, h2, h3⟩ := hs
  refine ⟨by rw [deliver_read_msg]; exact h1, ?_, ?_⟩
  · rw [deliver_write_msgs]
    intro m hmem
    rcases List.mem_append.mp hmem with h | h
    · exact h2 m h
    · rw [List.mem_singleton.mp h]; exact hm
  · rw [deliver_pending]
    intro op hmem
    rcases List.mem_append.mp hmem with h | h
    · exact h3 op h
    · split at h
      · rw [List.mem_singleton.mp h]; exact wire_fits msg hm
      · simp at h

theorem update_lengths_ok (w : server_state) (r : chat_room) (p : Nat) (s : chat_session)
    (hw : w.lengths_ok) (hr : r.recent_msgs_ = w.room_.recent_msgs_) (hs : s.lengths_ok) :
    server_state.lengths_ok ⟨r, Function.update w.sessions p s⟩ := by
  refine ⟨by simp only [hr]; exact hw.1, fun q => ?_⟩
  by_cases hq : q = p
  · subst hq; simp only [Function.update_same]; exact hs
  · simp only [Function.update_noteq hq]; exact hw.2 q

theorem participant_deliver_lengths_ok (w : server_state) (p : Nat) (msg : chat_message)
    (hw : w.lengths_ok) (hm : msg.length ≤ buffer_size) :
    (participant_deliver w p msg).lengths_ok :=
  update_lengths_ok w w.room_ p _ hw rfl (deliver_lengths_ok _ msg (hw.2 p) hm)

theorem fold_participants_lengths_ok (l : List Nat) (w : server_state) (msg : chat_message)
    (hw : w.lengths_ok) (hm : msg.length ≤ buffer_size) :
    (l.foldl (fun acc p => participant_deliver acc p msg) w).lengths_ok := by
  induction l generalizing w with
  | nil => exact hw
  | cons q qs ih => exact ih _ (participant_deliver_lengths_ok w q msg hw hm)

theorem fold_msgs_lengths_ok (l : List chat_message) (w : server_state) (p : Nat)
    (hw : w.lengths_ok) (hl : ∀ m ∈ l, chat_message.length m ≤ buffer_size) :
    (l.foldl (fun acc msg => participant_deliver acc p msg) w).lengths_ok := by
  induction l generalizing w with
  | nil => exact hw
  | cons m ms ih =>
    exact ih _ (participant_deliver_lengths_ok w p m hw (hl m (List.mem_cons_self _ _)))
      (fun x hx => hl x (List.mem_cons_of_mem _ hx))

theorem room_deliver_lengths_ok (w : server_state) (msg : chat_message)
    (hw : w.lengths_ok) (hm : msg.length ≤ buffer_size) :
    (chat_room.deliver w msg).lengths_ok := by
  unfold chat_room.deliver
  apply fold_participants_lengths_ok _ _ _ _ hm
  refine ⟨?_, hw.2⟩
  intro m hmem
  simp only [pop_front_loop_eq] at hmem
  rcases List.mem_append.mp (List.mem_of_mem_drop hmem) with h | h
  · exact hw.1 m h
  · rw [List.mem_singleton.mp h]; exact hm

theorem room_join_lengths_ok (w : server_state) (p : Nat) (hw : w.lengths_ok) :
    (chat_room.join w p).lengths_ok := by
  unfold chat_room.join
  exact fold_msgs_lengths_ok _ _ p ⟨hw.1, hw.2⟩ hw.1

theorem do_read_header_lengths_ok (s : chat_session) (hs : s.lengths_ok) :
    s.do_read_header.lengths_ok := by
  obtain ⟨h1, h2, h3⟩ := hs
  refine ⟨h1, h2, ?_⟩
  intro op hmem
  simp only [chat_session.do_read_header] at hmem
  rcases List.mem_append.mp hmem with h | h
  · exact h3 op h
  · rw [List.mem_singleton.mp h]
    simp [async_op.fits, buffer_size]

theorem start_lengths_ok (w : server_state) (p : Nat) (hw : w.lengths_ok) :
    (chat_session.start w p).lengths_ok := by
  unfold chat_session.start
  have hj := room_join_lengths_ok w p hw
  exact update_lengths_ok _ _ p _ hj rfl (do_read_header_lengths_ok _ (hj.2 p))

theorem decode_header_snd_le (m : chat_message) : m.decode_header.2.body_length_ ≤ 512 := by
  rw [decode_header_eq]
  split_ifs with hc
  · exact Nat.zero_le _
  · exact Nat.le_of_not_lt hc

theorem on_read_header_lengths_ok (w : server_state) (p : Nat) (ec : Bool) (bytes : List Nat)
    (hw : w.lengths_ok) : (chat_session.on_read_header w p ec bytes).lengths_ok := by
  obtain ⟨h1, h2, h3⟩ := hw.2 p
  have herase : ∀ op ∈ (w.sessions p).pending.erase async_op.read_header, op.fits :=
    fun op hop => h3 op (List.mem_of_mem_erase hop)
  have hdec := decode_header_snd_le (store_header (w.sessions p).read_msg_ bytes)
  have hlen : (store_header (w.sessions p).read_msg_ bytes).decode_header.2.length
      ≤ buffer_size := by
    simp only [chat_message.length, buffer_size, chat_message.header_length,
      chat_message.max_body_length]
    omega
  unfold chat_session.on_read_header
  cases ec
  · simp only [Bool.not_false, if_true]
    rcases hd : (store_header (w.sessions p).read_msg_ bytes).decode_header with ⟨_ | _, m⟩
    · rw [hd] at hlen
      exact update_lengths_ok w _ p _ hw rfl ⟨hlen, h2, herase⟩
    · rw [hd] at hlen hdec
      refine update_lengths_ok w _ p _ hw rfl ⟨hlen, h2, ?_⟩
      intro op hmem
      simp only [chat_session.do_read_body] at hmem
      rcases List.mem_append.mp hmem with h | h
      · exact herase op h
      · rw [List.mem_singleton.mp h]
        simp only [async_op.fits, buffer_size, chat_message.header_length,
          chat_message.max_body_length, chat_message.body_length]
        simp only at hdec
        omega
  · simp only [Bool.not_true, Bool.false_eq_true, if_false]
    exact update_lengths_ok w _ p _ hw rfl ⟨h1, h2, herase⟩

theorem on_read_body_lengths_ok (w : server_state) (p : Nat) (ec : Bool) (bytes : List Nat)
    (hw : w.lengths_ok) : (chat_session.on_read_body w p ec bytes).lengths_ok := by
  obtain ⟨h1, h2, h3⟩ := hw.2 p
  have hs : chat_session.lengths_ok
      ⟨store_body (w.sessions p).read_msg_ bytes, (w.sessions p).write_msgs_,
        (w.sessions p).pending.erase
          (async_op.read_body (w.sessions p).read_msg_.body_length)⟩ :=
    ⟨h1, h2, fun op hop => h3 op (List.mem_of_mem_erase hop)⟩
  unfold chat_session.on_read_body
  cases ec
  · simp only [Bool.not_false, if_true]
    have hd := room_deliver_lengths_ok _ (store_body (w.sessions p).read_msg_ bytes)
      (update_lengths_ok w w.room_ p _ hw rfl hs) h1
    exact update_lengths_ok _ _ p _ hd rfl (do_read_header_lengths_ok _ (hd.2 p))
  · simp only [Bool.not_true, Bool.false_eq_true, if_false]
    exact update_lengths_ok w _ p _ hw rfl hs

theorem on_write_lengths_ok (w w1 : server_state) (p : Nat) (ec : Bool) (hw : w.lengths_ok)
    (h : chat_session.on_write w p ec = some w1) : w1.lengths_ok := by
  obtain ⟨h1, h2, h3⟩ := hw.2 p
  unfold chat_session.on_write at h
  cases hc : complete_write (w.sessions p).pending with
  | none => simp [hc] at h
  | some ops =>
    have hops : ∀ op ∈ ops, op.fits :=
      fun op hop => h3 op ((complete_write_sublist _ _ hc).1.subset hop)
    cases ec
    · simp only [hc, Bool.not_false, if_true] at h
      cases hq : (w.sessions p).write_msgs_ with
      | nil => simp [chat_session.on_write_ok, hq] at h
      | cons m rest =>
        have hrest : ∀ x ∈ rest, chat_message.length x ≤ buffer_size :=
          fun x hx => h2 x (by rw [hq]; exact List.mem_cons_of_mem _ hx)
        cases rest with
        | nil =>
          simp only [chat_session.on_write_ok, hq, List.isEmpty_nil, Bool.not_true,
            Bool.false_eq_true, if_false, Option.some.injEq] at h
          subst h
          exact update_lengths_ok w _ p _ hw rfl ⟨h1, hrest, hops⟩
        | cons m2 ms =>
          simp only [chat_session.on_write_ok, hq, List.isEmpty_cons, Bool.not_false,
            if_true, chat_session.do_write, Option.some.injEq] at h
          subst h
          refine update_lengths_ok w _ p _ hw rfl ⟨h1, hrest, ?_⟩
          intro op hmem
          rcases List.mem_append.mp hmem with h | h
          · exact hops op h
          · rw [List.mem_singleton.mp h]
            exact wire_fits m2 (hrest m2 (List.mem_cons_self _ _))
    · simp only [hc, Bool.not_true, Bool.false_eq_true, if_false, Option.some.injEq] at h
      subst h
      exact update_lengths_ok w _ p _ hw rfl ⟨h1, h2, hops⟩

theorem server_run_lengths_ok (es : List server_event) (w w1 : server_state)
    (hw : w.lengths_ok) (hes : ∀ e ∈ es, server_event.from_reactor e = true)
    (h : server_run w es = some w1) : w1.lengths_ok := by
  induction es generalizing w with
  | nil =>
    simp only [server_run, Option.some.injEq] at h
    subst h
    exact hw
  | cons e es ih =>
    simp only [server_run] at h
    cases hr : e.run w with
    | none => simp [hr] at h
    | some w2 =>
      rw [hr] at h
      refine ih w2 ?_ (fun e2 h2 => hes e2 (List.mem_cons_of_mem _ h2)) h
      have hre := hes e (List.mem_cons_self _ _)
      cases e with
      | start p =>
        simp only [server_event.run, Option.some.injEq] at hr
        subst hr
        exact start_lengths_ok w p hw
      | deliver p msg => simp [server_event.from_reactor] at hre
      | read_header_done p ec bytes =>
        simp only [server_event.run] at hr
        split at hr
        · simp only [Option.some.injEq] at hr
          subst hr
          exact on_read_header_lengths_ok w p ec bytes hw
        · exact Option.noConfusion hr
      | read_body_done p ec bytes =>
        simp only [server_event.run] at hr
        split at hr
        · simp only [Option.some.injEq] at hr
          subst hr
          exact on_read_body_lengths_ok w p ec bytes hw
        · exact Option.noConfusion hr
      | write_done p ec =>
        exact on_write_lengths_ok w w2 p ec hw hr

theorem client_on_read_header_pending (c : chat_client) (ec : Bool) (bytes : List Nat) :
    (c.on_read_header ec bytes).pending =
      c.pending.erase async_op.read_header ++
        (if ec || !((store_header c.read_msg_ bytes).decode_header).1 then []
         else [async_op.read_body ((store_header c.read_msg_ bytes).decode_header).2.body_length]) := by
  unfold chat_client.on_read_header
  cases ec
  · simp only [Bool.not_false, if_true, Bool.false_or]
    rcases hd : (store_header c.read_msg_ bytes).decode_header with ⟨_ | _, m⟩ <;>
      simp [chat_client.do_read_body]
  · simp

theorem client_frame_length_le (g line : List Nat) :
    (client_frame g line).length ≤ buffer_size := by
  have h : (client_frame g line).body_length_ = min line.length 512 := by
    simp only [client_frame, chat_message.encode_header]
    exact set_body_length_val _ _
  simp only [chat_message.length, buffer_size, chat_message.header_length,
    chat_message.max_body_length, h]
  omega

theorem producer_loop_length_le (g : List Nat) (fuel : Nat) (input : List Nat) :
    ∀ m ∈ producer_loop g fuel input, chat_message.length m ≤ buffer_size := by
  induction fuel generalizing input with
  | zero => simp [producer_loop]
  | succ n ih =>
    intro m hm
    simp only [producer_loop] at hm
    rcases hgl : getline_loop (chat_message.max_body_length + 1) [] input with
      ⟨stored, rest, _ | _⟩
    · rw [hgl] at hm
      rcases List.mem_cons.mp hm with h | h
      · rw [h]; exact client_frame_length_le _ _
      · exact ih rest m h
    · rw [hgl] at hm
      simp at hm

theorem fresh_server_lengths_ok : fresh_server.lengths_ok := by
  refine ⟨?_, fun p => ⟨?_, ?_, ?_⟩⟩
  · intro m hm
    exact (List.not_mem_nil m hm).elim
  · show 4 + 0 ≤ 4 + 512
    omega
  · intro m hm
    exact (List.not_mem_nil m hm).elim
  · intro op hop
    exact (List.not_mem_nil op hop).elim

/-- C15. Body reads stay inside the message buffer.  In every server state `w`
reached by reactor events (starts and completions) from a state in which all
lengths are within the buffer (the fresh server in particular), and for all
bytes a header read stores: either `decode_header` fails and the header
handler starts no body read, or it succeeds and the body read started covers
`body_length()` bytes from offset 4 with `4 + body_length() ≤ 516`, the size of
the buffer; the same holds for the client.  Every message in a send queue or
in the history has `length() ≤ 516`, every outstanding operation stays inside
the buffer, and so does every message the client's producer loop submits. -/
theorem body_reads_inside_buffer (w0 w : server_state) (es : List server_event) (self : Nat)
    (bytes : List Nat) (c : chat_client) (g input : List Nat)
    (hinit : w0.lengths_ok) (hes : ∀ e ∈ es, server_event.from_reactor e = true)
    (hrun : server_run w0 es = some w) :
    (((store_header (w.sessions self).read_msg_ bytes).decode_header).1 = false →
      ((chat_session.on_read_header w self false bytes).sessions self).pending
        = (w.sessions self).pending.erase async_op.read_header) ∧
    (((store_header (w.sessions self).read_msg_ bytes).decode_header).1 = true →
      ((chat_session.on_read_header w self false bytes).sessions self).pending
        = (w.sessions self).pending.erase async_op.read_header ++ [async_op.read_body
            ((store_header (w.sessions self).read_msg_ bytes).decode_header).2.body_length] ∧
      chat_message.header_length
        + ((store_header (w.sessions self).read_msg_ bytes).decode_header).2.body_length
        ≤ buffer_size) ∧
    (((store_header c.read_msg_ bytes).decode_header).1 = false →
      (c.on_read_header false bytes).pending = c.pending.erase async_op.read_header) ∧
    (((store_header c.read_msg_ bytes).decode_header).1 = true →
      (c.on_read_header false bytes).pending
        = c.pending.erase async_op.read_header ++ [async_op.read_body
            ((store_header c.read_msg_ bytes).decode_header).2.body_length] ∧
      chat_message.header_length
        + ((store_header c.read_msg_ bytes).decode_header).2.body_length ≤ buffer_size) ∧
    (∀ p, ∀ m ∈ (w.sessions p).write_msgs_, chat_message.length m ≤ buffer_size) ∧
    (∀ m ∈ w.room_.recent_msgs_, chat_message.length m ≤ buffer_size) ∧
    (∀ p, ∀ op ∈ (w.sessions p).pending, op.fits) ∧
    (∀ p, ∀ op ∈ ((chat_session.on_read_header w p false bytes).sessions p).pending, op.fits) ∧
    (∀ m ∈ producer g input, chat_message.length m ≤ buffer_size) ∧
    buffer_size = 516 := by
  have hw := server_run_lengths_ok es w0 w hinit hes hrun
  have hle : ∀ m : chat_message, chat_message.header_length + m.decode_header.2.body_length
      ≤ buffer_size := by
    intro m
    have := decode_header_snd_le m
    simp only [buffer_size, chat_message.header_length, chat_message.max_body_length,
      chat_message.body_length]
    omega
  refine ⟨fun hd => ?_, fun hd => ⟨?_, hle _⟩, fun hd => ?_, fun hd => ⟨?_, hle _⟩,
    fun p => (hw.2 p).2.1, hw.1, fun p => (hw.2 p).2.2,
    fun p => ((on_read_header_lengths_ok w p false bytes hw).2 p).2.2,
    producer_loop_length_le g _ input, rfl⟩
  · rw [on_read_header_pending, hd]; simp
  · rw [on_read_header_pending, hd]; simp
  · rw [client_on_read_header_pending, hd]; simp
  · rw [client_on_read_header_pending, hd]; simp

/-- C15, witness: on the fresh server a session is started, reads the header
`"   1"` and the body `B`; its own message is then in its send queue. -/
theorem body_reads_inside_buffer_witness :
    server_run fresh_server
        [server_event.start 1, server_event.read_header_done 1 false (bytes_of "   1"),
          server_event.read_body_done 1 false [66]]
      = some (chat_session.on_read_body (chat_session.on_read_header
          (chat_session.start fresh_server 1) 1 false (bytes_of "   1")) 1 false [66]) ∧
    (((chat_session.on_read_body (chat_session.on_read_header
          (chat_session.start fresh_server 1) 1 false (bytes_of "   1")) 1 false [66]).sessions
        1).write_msgs_.map chat_message.length) = [5] ∧
    (∀ p, ∀ m ∈ ((chat_session.on_read_body (chat_session.on_read_header
          (chat_session.start fresh_server 1) 1 false (bytes_of "   1")) 1 false [66]).sessions
        p).write_msgs_, chat_message.length m ≤ buffer_size) :=
  ⟨rfl, by decide,
   (body_reads_inside_buffer fresh_server
      (chat_session.on_read_body (chat_session.on_read_header
        (chat_session.start fresh_server 1) 1 false (bytes_of "   1")) 1 false [66])
      [server_event.start 1, server_event.read_header_done 1 false (bytes_of "   1"),
        server_event.read_body_done 1 false [66]]
      1 (bytes_of " 512")
      ⟨true, chat_message.new (List.replicate 516 0), [], [async_op.read_header]⟩
      (List.replicate 516 0) (bytes_of "hello" ++ [10])
      fresh_server_lengths_ok (by decide) rfl).2.2.2.2.1⟩

/-! ## Headers with bytes that are not digits -/

theorem atoi_of_no_digit_to_convert (s : List Nat) (h : no_digit_to_convert s = true) :
    atoi s = 0 := by
  unfold no_digit_to_convert at h
  unfold atoi
  cases hd : s.dropWhile isspace with
  | nil => rfl
  | cons c cs =>
    rw [hd] at h
    simp only at h ⊢
    by_cases hs : c = 45 ∨ c = 43
    · rw [if_pos hs] at h
      have hz : atoi_digits 0 cs = 0 := by
        cases cs with
        | nil => rfl
        | cons d ds =>
          simp only [Bool.not_eq_true'] at h
          simp [atoi_digits, h]
      rcases hs with h45 | h43
      · rw [if_pos h45, hz]; rfl
      · have hne : c ≠ 45 := by omega
        rw [if_neg hne, if_pos h43, hz]; rfl
    · rw [if_neg hs] at h
      simp only [Bool.not_eq_true'] at h
      have h45 : c ≠ 45 := fun hc => hs (Or.inl hc)
      have h43 : c ≠ 43 := fun hc => hs (Or.inr hc)
      rw [if_neg h45, if_neg h43]
      simp [atoi_digits, h]

/-- C16, counterexample: headers with a byte that is neither a digit nor a leading
space which do not decode to 0.  `"12ab"` decodes to 12, `" 1 2"` to 1, and
`"999a"` fails to decode. -/
theorem digit_run_header_not_zero :
    (chat_message.decode_header ⟨bytes_of "12ab" ++ List.replicate 512 0, 7⟩).1 = true ∧
    (chat_message.decode_header
      ⟨bytes_of "12ab" ++ List.replicate 512 0, 7⟩).2.body_length = 12 ∧
    (chat_message.decode_header
      ⟨bytes_of " 1 2" ++ List.replicate 512 0, 7⟩).2.body_length = 1 ∧
    (chat_message.decode_header ⟨bytes_of "999a" ++ List.replicate 512 0, 7⟩).1 = false := by
  decide

/-- C16, amended.  A 4-byte header in which `atoi` finds no digit to convert
(after the leading white space and an optional sign the text ends or goes on
with a byte that is not a digit, as in `"abcd"`) parses as zero: `decode_header`
returns `true` and sets `body_length()` to 0, and the header handler accepts
the frame as a zero-length body: the room is not touched (the client socket
stays as it is) and a body read of 0 bytes is started. -/
theorem no_digit_header_zero (w : server_state) (self : Nat) (c : chat_client)
    (h : List Nat) (hlen : h.length = 4)
    (hnd : no_digit_to_convert (strncat_empty h chat_message.header_length) = true) :
    (∀ (rest : List Nat) (bl : Nat),
      chat_message.decode_header ⟨h ++ rest, bl⟩ = (true, ⟨h ++ rest, 0⟩)) ∧
    (chat_session.on_read_header w self false h).room_ = w.room_ ∧
    ((chat_session.on_read_header w self false h).sessions self).read_msg_.body_length = 0 ∧
    ((chat_session.on_read_header w self false h).sessions self).pending
      = (w.sessions self).pending.erase async_op.read_header ++ [async_op.read_body 0] ∧
    (c.on_read_header false h).socket_open = c.socket_open ∧
    (c.on_read_header false h).pending
      = c.pending.erase async_op.read_header ++ [async_op.read_body 0] := by
  simp only [chat_message.header_length] at hnd
  have ha := atoi_of_no_digit_to_convert _ hnd
  have hz : int_to_size_t (atoi (strncat_empty h 4)) = 0 := by rw [ha]; rfl
  have hv : int_to_size_t (atoi (strncat_empty h 4)) ≤ 512 := by rw [hz]; exact Nat.zero_le _
  rw [session_on_read_header_accept w self h hlen hv, client_on_read_header_accept c h hlen hv,
    hz]
  refine ⟨fun rest bl => ?_, rfl, ?_, ?_, rfl, rfl⟩
  · rw [decode_header_accept h rest bl hlen hv, hz]
  · simp [chat_message.body_length]
  · simp

/-- C16 amended, witness: the headers `"abcd"` and `"+ 12"`. -/
theorem no_digit_header_zero_witness :
    no_digit_to_convert (strncat_empty (bytes_of "abcd") 4) = true ∧
    (∀ (rest : List Nat) (bl : Nat),
      chat_message.decode_header ⟨bytes_of "abcd" ++ rest, bl⟩
        = (true, ⟨bytes_of "abcd" ++ rest, 0⟩)) ∧
    no_digit_to_convert (strncat_empty (bytes_of "+ 12") 4) = true ∧
    (∀ (rest : List Nat) (bl : Nat),
      chat_message.decode_header ⟨bytes_of "+ 12" ++ rest, bl⟩
        = (true, ⟨bytes_of "+ 12" ++ rest, 0⟩)) :=
  ⟨by decide,
   (no_digit_header_zero fresh_server 1
      ⟨true, chat_message.new (List.replicate 516 0), [], [async_op.read_header]⟩
      (bytes_of "abcd") (by decide) (by decide)).1,
   by decide,
   (no_digit_header_zero fresh_server 1
      ⟨true, chat_message.new (List.replicate 516 0), [], [async_op.read_header]⟩
      (bytes_of "+ 12") (by decide) (by decide)).1⟩

end ChatRelay
